import Mathlib

/-!
Verification development for the antrea-releaser changelog pipeline.

The Go sources are shallowly embedded: pure functions become Lean functions,
Go `int`/`uint64` become `Int`/`Nat` (no arithmetic here ever overflows:
the only operations are comparisons and decrements guarded by positivity),
`time.Time` values become `Int` timestamps ordered by `<` (`Before`),
fallible operations become `Option`/`Except`, and the GitHub client is an
explicit oracle function passed as an argument.  Go maps are embedded as
association lists in insertion order; every claim proved about them is
insertion-order independent, matching Go's unspecified map iteration order.
Strings are handled as `List Char` (the Go sources index by byte; all
string literals involved are ASCII, where bytes and characters coincide).
-/

namespace Antrea

/-! ## Small string helpers mirroring Go's `strings` package -/

/-- Go `unicode.IsSpace` restricted to the Latin-1 range (the only
whitespace the changelog grammar can produce). -/
def goIsSpace (c : Char) : Bool :=
  c = ' ' || c = '\t' || c = '\n' || c = (Char.ofNat 11) || c = (Char.ofNat 12) ||
  c = '\r' || c = (Char.ofNat 0x85) || c = (Char.ofNat 0xA0)

/-- Go `strings.TrimSpace` on a character list. -/
def goTrimSpace (cs : List Char) : List Char :=
  ((cs.dropWhile goIsSpace).reverse.dropWhile goIsSpace).reverse

/-- Go `strings.HasPrefix`. -/
def hasPrefixC (pre cs : List Char) : Bool :=
  pre.isPrefixOf cs

/-- Go `strings.TrimPrefix`: drops `pre` when present, otherwise identity. -/
def trimPrefixC (pre cs : List Char) : List Char :=
  if hasPrefixC pre cs then cs.drop pre.length else cs

/-- Go `strings.TrimSuffix`: drops `suf` when present, otherwise identity. -/
def trimSuffixC (suf cs : List Char) : List Char :=
  if suf.isSuffixOf cs then cs.take (cs.length - suf.length) else cs

/-- Go `strings.ToUpper` (ASCII; the parsed category words are ASCII). -/
def toUpperC (cs : List Char) : List Char :=
  cs.map Char.toUpper

/-- Go `strings.Index cs sub`: position of the first occurrence of `sub`,
`none` when absent (Go returns -1). -/
def indexOfSub (sub : List Char) : List Char → Option Nat
  | [] => if sub = [] then some 0 else none
  | c :: rest =>
    if hasPrefixC sub (c :: rest) then some 0
    else (indexOfSub sub rest).map (· + 1)

/-- Numeric value of a digit string (caller guarantees digits only). -/
def digitsVal (ds : List Char) : Nat :=
  ds.foldl (fun n c => n * 10 + (c.toNat - '0'.toNat)) 0

/-- Go `strconv.Atoi`: optional sign, one or more digits, 64-bit `int`
range; every other input is an error (`none`). -/
def goAtoi (cs : List Char) : Option Int :=
  if cs = [] then none
  else
    let neg : Bool := cs.head? == some '-'
    let ds : List Char := if cs.head? == some '+' || cs.head? == some '-' then cs.tail else cs
    if ds = [] then none
    else if ds.all Char.isDigit then
      let v : Int := if neg then -(digitsVal ds : Int) else (digitsVal ds : Int)
      if -(2 ^ 63) ≤ v ∧ v ≤ 2 ^ 63 - 1 then some v else none
    else none

/-- Go `strings.Split cs "."`. -/
def splitOnDot : List Char → List (List Char)
  | [] => [[]]
  | c :: rest =>
    if c = '.' then [] :: splitOnDot rest
    else
      match splitOnDot rest with
      | [] => [[c]]
      | h :: t => (c :: h) :: t

/-- Go `strings.Split cs "\n"`. -/
def splitLinesC : List Char → List (List Char)
  | [] => [[]]
  | c :: rest =>
    if c = '\n' then [] :: splitLinesC rest
    else
      match splitLinesC rest with
      | [] => [[c]]
      | h :: t => (c :: h) :: t

/-! ## VersionResolver

`pkg/changelog/version` stores `uint64` components (embedded as `Nat`);
`cmd/prepare-changelog/main.go` has its own `Version` with `int` components
(embedded as `Int`), filled by `parseVersion` via `strconv.Atoi`. -/

/-- `version.Version` (pkg/changelog/version, `uint64` fields). -/
structure Version where
  major : Nat
  minor : Nat
  patch : Nat
deriving DecidableEq, Repr, Inhabited

/-- `(*Version).String`: `fmt.Sprintf("%d.%d.%d", major, minor, patch)`. -/
def Version.toVString (v : Version) : String :=
  toString v.major ++ "." ++ toString v.minor ++ "." ++ toString v.patch

/-- `(*Version).GreaterThan`: lexicographic major, minor, patch. -/
def Version.GreaterThan (v other : Version) : Bool :=
  if v.major ≠ other.major then v.major > other.major
  else if v.minor ≠ other.minor then v.minor > other.minor
  else v.patch > other.patch

/-- `(*Version).CalculatePreviousRelease` (pkg/changelog/version/version.go):
renders the previous release as a string, exactly the three `fmt.Sprintf`
branches of the source. -/
def Version.CalculatePreviousRelease (v : Version) : String :=
  if v.patch = 0 then
    if v.minor > 0 then
      toString v.major ++ "." ++ toString (v.minor - 1) ++ "." ++ "0"
    else
      toString v.major ++ "." ++ "0" ++ "." ++ "0"
  else
    toString v.major ++ "." ++ toString v.minor ++ "." ++ toString (v.patch - 1)

/-- `determineBranch` (pkg/changelog/generator.go). -/
def determineBranch (v : Version) : String :=
  if v.patch = 0 then "main"
  else "release-" ++ toString v.major ++ "." ++ toString v.minor

/-- `main.Version` (cmd/prepare-changelog/main.go, `int` fields). -/
structure MVersion where
  major : Int
  minor : Int
  patch : Int
deriving DecidableEq, Repr, Inhabited

/-- `parseVersion` (cmd/prepare-changelog/main.go): split on ".", require
exactly three components, `strconv.Atoi` each. -/
def parseVersion (s : String) : Option MVersion :=
  match splitOnDot s.data with
  | [p1, p2, p3] =>
    match goAtoi p1, goAtoi p2, goAtoi p3 with
    | some a, some b, some c => some ⟨a, b, c⟩
    | _, _, _ => none
  | _ => none

/-- The digit part of an `Atoi` input: the input minus its optional sign. -/
def goIntDigits (cs : List Char) : List Char :=
  if cs.head? == some '+' || cs.head? == some '-' then cs.tail else cs

/-- Syntactic shape accepted by Go's `strconv.Atoi`: an optional sign
followed by a non-empty digit string whose value fits a 64-bit `int`.
Negative values are accepted: the digits after a `-` may reach `2 ^ 63`. -/
def GoIntLit (cs : List Char) : Prop :=
  cs ≠ [] ∧
  goIntDigits cs ≠ [] ∧ (∀ c ∈ goIntDigits cs, c.isDigit = true) ∧
  (digitsVal (goIntDigits cs) : Int) ≤ (if cs.head? == some '-' then 2 ^ 63 else 2 ^ 63 - 1)

instance decGoIntLit (cs : List Char) : Decidable (GoIntLit cs) := by
  unfold GoIntLit
  infer_instance

theorem goAtoi_isSome_iff (cs : List Char) : (goAtoi cs).isSome = true ↔ GoIntLit cs := by
  unfold goAtoi GoIntLit
  by_cases h0 : cs = []
  · simp [h0]
  · simp only [h0, if_neg, if_false, ite_false, ne_eq, not_false_eq_true, true_and]
    set ds := goIntDigits cs with hds
    rw [show (if cs.head? == some '+' || cs.head? == some '-' then cs.tail else cs) = ds from rfl]
    by_cases hd0 : ds = []
    · simp [hd0]
    · simp only [hd0, if_neg, not_false_eq_true, true_and, ite_false]
      by_cases hall : ds.all Char.isDigit
      · simp only [hall, if_pos, ite_true]
        rw [List.all_eq_true] at hall
        constructor
        · intro h
          refine ⟨hall, ?_⟩
          by_cases hneg : (cs.head? == some '-') = true
          · simp only [hneg, if_pos, ite_true] at h ⊢
            split at h
            · next hrange =>
              have := hrange.1
              omega
            · simp at h
          · simp only [hneg, Bool.false_eq_true, if_false, ite_false] at h ⊢
            split at h
            · next hrange => exact hrange.2
            · simp at h
        · rintro ⟨-, hbound⟩
          by_cases hneg : (cs.head? == some '-') = true
          · simp only [hneg, if_pos, ite_true] at hbound ⊢
            have hnn : (0 : Int) ≤ (digitsVal ds : Int) := Int.ofNat_nonneg _
            rw [if_pos ⟨by omega, by omega⟩]
            rfl
          · simp only [hneg, Bool.false_eq_true, if_false, ite_false] at hbound ⊢
            have hnn : (0 : Int) ≤ (digitsVal ds : Int) := Int.ofNat_nonneg _
            rw [if_pos ⟨by omega, by omega⟩]
            rfl
      · simp only [hall, if_neg, not_false_eq_true, ite_false]
        rw [List.all_eq_true] at hall
        simp [hall]

/-- C9 (counterexample): `parseVersion` accepts `"1.2.-3"`, a string whose
third dot-separated component is not a non-negative integer, because
`strconv.Atoi` accepts signed integers.  The claim says parsing must fail
on every such input. -/
theorem C9_parseVersion_counterexample : parseVersion "1.2.-3" = some ⟨1, 2, -3⟩ := by
  decide

/-- C9 (amended): `parseVersion` succeeds exactly on strings of three
dot-separated components, each of which is an optionally signed decimal
integer fitting Go's 64-bit `int` (so negative components are accepted);
it fails on every other input, including fewer or more components. -/
theorem C9_parseVersion_characterization (s : String) :
    (parseVersion s).isSome = true ↔
      (match splitOnDot s.data with
       | [p1, p2, p3] => GoIntLit p1 ∧ GoIntLit p2 ∧ GoIntLit p3
       | _ => False) := by
  unfold parseVersion
  match h : splitOnDot s.data with
  | [] => simp
  | [_] => simp
  | [_, _] => simp
  | [p1, p2, p3] =>
    simp only []
    rw [← goAtoi_isSome_iff, ← goAtoi_isSome_iff, ← goAtoi_isSome_iff]
    cases goAtoi p1 <;> cases goAtoi p2 <;> cases goAtoi p3 <;> simp
  | _ :: _ :: _ :: _ :: _ => simp

/-- C1: for every version, `CalculatePreviousRelease` renders
`(major, minor, patch-1)` when `patch > 0`; `(major, minor-1, 0)` when
`patch = 0` and `minor > 0`; and `(major, 0, 0)` when `patch = minor = 0`. -/
theorem C1_calculatePreviousRelease (v : Version) :
    (v.patch > 0 →
      v.CalculatePreviousRelease = Version.toVString ⟨v.major, v.minor, v.patch - 1⟩) ∧
    (v.patch = 0 → v.minor > 0 →
      v.CalculatePreviousRelease = Version.toVString ⟨v.major, v.minor - 1, 0⟩) ∧
    (v.patch = 0 → v.minor = 0 →
      v.CalculatePreviousRelease = Version.toVString ⟨v.major, 0, 0⟩) := by
  have h0 : toString (0 : Nat) = "0" := rfl
  unfold Version.CalculatePreviousRelease Version.toVString
  refine ⟨fun hp => ?_, fun hp hm => ?_, fun hp hm => ?_⟩
  · rw [if_neg (by omega)]
  · rw [if_pos hp, if_pos hm]
    simp only [h0]
  · rw [if_pos hp, if_neg (by omega)]
    simp only [h0]

/-! ## PullRequestCollector data model -/

/-- `types.PRInfo`: a collected, merged pull request. -/
structure PRInfo where
  number : Int
  title : String
  body : String
  author : String
  labels : List String
  mergedAt : Int
deriving DecidableEq, Repr, Inhabited

/-- A pull request as returned by the GitHub listing API
(`MergedAt` may be nil for closed-but-unmerged PRs). -/
structure Pull where
  number : Int
  title : String
  body : String
  author : String
  labels : List String
  mergedAt : Option Int
deriving DecidableEq, Repr, Inhabited

/-- `types.ChangeEntry`: one classifier output record
(pkg/changelog/types/types.go). -/
structure ChangeEntry where
  prNumber : Int
  category : String
  description : String
  includeScore : Int
  importanceScore : Int
  reusedFromHistory : Bool
  author : String
deriving DecidableEq, Repr, Inhabited

/-! ## Deduplication step of `fetchPRs` (generator.go / main.go)

The Go code inserts every collected record into `prMap` keyed by PR number,
keeping only the first occurrence, then takes the map's values.  The map is
embedded as an association list in insertion order; iteration order of a Go
map is unspecified, and the claims proved below are order-independent. -/

/-- One `if _, exists := prMap[pr.Number]; !exists { prMap[pr.Number] = pr }`
step. -/
def dedupInsert (m : List (Int × PRInfo)) (pr : PRInfo) : List (Int × PRInfo) :=
  if (m.lookup pr.number).isSome then m else m ++ [(pr.number, pr)]

/-- The dedup loop of `fetchPRs` over the collected records. -/
def dedupGo (m : List (Int × PRInfo)) : List PRInfo → List (Int × PRInfo)
  | [] => m
  | pr :: rest => dedupGo (dedupInsert m pr) rest

/-- `prMap` after the dedup loop of `fetchPRs`. -/
def dedupPRs (prs : List PRInfo) : List (Int × PRInfo) :=
  dedupGo [] prs

/-- `uniquePRs`: the values of `prMap` (insertion order; Go iterates in
unspecified order, the claims below hold for any order). -/
def uniquePRs (prs : List PRInfo) : List PRInfo :=
  (dedupPRs prs).map Prod.snd

/-- Every stored value is keyed by its own PR number. -/
def KeyedByNumber (m : List (Int × PRInfo)) : Prop :=
  ∀ kv ∈ m, (kv.2).number = kv.1

theorem dedupInsert_keyed {m : List (Int × PRInfo)} (hm : KeyedByNumber m) (pr : PRInfo) :
    KeyedByNumber (dedupInsert m pr) := by
  unfold dedupInsert
  split
  · exact hm
  · intro kv hkv
    rcases List.mem_append.1 hkv with h | h
    · exact hm kv h
    · simp only [List.mem_singleton] at h
      subst h
      rfl

theorem dedupGo_keyed {m : List (Int × PRInfo)} (hm : KeyedByNumber m) :
    ∀ prs, KeyedByNumber (dedupGo m prs) := by
  intro prs
  induction prs generalizing m with
  | nil => exact hm
  | cons pr rest ih => exact ih (dedupInsert_keyed hm pr)

theorem lookup_eq_find?_snd {m : List (Int × PRInfo)} (hm : KeyedByNumber m) (n : Int) :
    m.lookup n = (m.map Prod.snd).find? (fun pr => pr.number == n) := by
  induction m with
  | nil => rfl
  | cons kv t ih =>
    have hkv : (kv.2).number = kv.1 := hm kv (List.mem_cons_self kv t)
    have ht : KeyedByNumber t := fun x hx => hm x (List.mem_cons_of_mem kv hx)
    rw [List.map_cons, List.lookup_cons, List.find?_cons]
    rcases kv with ⟨k, v⟩
    simp only at hkv
    by_cases h : k = n
    · subst h
      simp [hkv]
    · have h1 : (n == k) = false := by simp [Ne.symm h]
      have h2 : (v.number == n) = false := by simp [hkv, h]
      rw [h1, h2]
      exact ih ht

theorem dedupGo_find? (n : Int) :
    ∀ (prs : List PRInfo) (m : List (Int × PRInfo)), KeyedByNumber m →
    ((dedupGo m prs).map Prod.snd).find? (fun pr => pr.number == n) =
      ((m.map Prod.snd).find? (fun pr => pr.number == n)).or
        (prs.find? (fun pr => pr.number == n)) := by
  intro prs
  induction prs with
  | nil =>
    intro m _
    rw [show ∀ m0 : List (Int × PRInfo), dedupGo m0 [] = m0 from fun _ => rfl]
    simp
  | cons pr rest ih =>
    intro m hm
    have hm1 : KeyedByNumber (dedupInsert m pr) := dedupInsert_keyed hm pr
    rw [show dedupGo m (pr :: rest) = dedupGo (dedupInsert m pr) rest from rfl, ih _ hm1]
    unfold dedupInsert
    split
    · next hsome =>
      rw [lookup_eq_find?_snd hm] at hsome
      rcases Option.isSome_iff_exists.1 hsome with ⟨v, hv⟩
      rw [List.find?_cons]
      by_cases h : (pr.number == n) = true
      · have : n = pr.number := (eq_of_beq h).symm
        subst this
        rw [hv]
        simp
      · simp only [Bool.not_eq_true] at h
        rw [h]
    · next hnone =>
      rw [Option.not_isSome_iff_eq_none, lookup_eq_find?_snd hm] at hnone
      rw [List.map_append, List.find?_append]
      rcases hp : (pr.number == n) with _ | _
      · rw [List.find?_cons, hp]
        simp [List.find?, hp]
      · have : n = pr.number := (eq_of_beq hp).symm
        subst this
        rw [hnone, List.find?_cons, hp]
        simp [List.find?, hp]

theorem dedupInsert_keys_nodup {m : List (Int × PRInfo)}
    (hm : (m.map Prod.fst).Nodup) (pr : PRInfo) :
    ((dedupInsert m pr).map Prod.fst).Nodup := by
  unfold dedupInsert
  split
  · exact hm
  · next hnone =>
    rw [Option.not_isSome_iff_eq_none, List.lookup_eq_none_iff] at hnone
    rw [List.map_append]
    simp only [List.map_cons, List.map_nil]
    rw [List.nodup_append]
    refine ⟨hm, List.nodup_singleton _, ?_⟩
    intro k hk
    simp only [List.mem_singleton]
    intro hcon
    rcases List.mem_map.1 hk with ⟨⟨k0, v0⟩, hkv0, hfst⟩
    have := hnone _ hkv0
    simp only at hfst
    subst hfst
    subst hcon
    simp at this

theorem dedupGo_keys_nodup :
    ∀ (prs : List PRInfo) (m : List (Int × PRInfo)), (m.map Prod.fst).Nodup →
      ((dedupGo m prs).map Prod.fst).Nodup := by
  intro prs
  induction prs with
  | nil => intro m hm; exact hm
  | cons pr rest ih => intro m hm; exact ih _ (dedupInsert_keys_nodup hm pr)

theorem keyed_nodup_pairwise {m : List (Int × PRInfo)} (hk : KeyedByNumber m)
    (hn : (m.map Prod.fst).Nodup) :
    (m.map Prod.snd).Pairwise (fun a b => a.number ≠ b.number) := by
  induction m with
  | nil => simp
  | cons kv t ih =>
    have hkv : (kv.2).number = kv.1 := hk kv (List.mem_cons_self kv t)
    have ht : KeyedByNumber t := fun x hx => hk x (List.mem_cons_of_mem kv hx)
    simp only [List.map_cons, List.nodup_cons] at hn
    rw [List.map_cons, List.pairwise_cons]
    refine ⟨?_, ih ht hn.2⟩
    intro b hb
    rcases List.mem_map.1 hb with ⟨⟨k0, v0⟩, hkv0, hsnd⟩
    have hb0 : v0.number = k0 := ht _ hkv0
    subst hsnd
    rw [hkv, hb0]
    intro hcon
    exact hn.1 (hcon ▸ List.mem_map_of_mem Prod.fst hkv0)

/-- C2: the deduplication step of collection keeps each PR number at most
once (pairwise distinct numbers), keeps exactly the numbers present in the
input, and the record stored for a number is the first input record with
that number. -/
theorem C2_dedup_unique_first_wins (prs : List PRInfo) :
    (uniquePRs prs).Pairwise (fun a b => a.number ≠ b.number) ∧
    (∀ n : Int,
      (uniquePRs prs).any (fun pr => pr.number == n) = prs.any (fun pr => pr.number == n)) ∧
    (∀ n : Int,
      (uniquePRs prs).find? (fun pr => pr.number == n) = prs.find? (fun pr => pr.number == n)) := by
  have hkeyed : KeyedByNumber ([] : List (Int × PRInfo)) := by intro kv h; cases h
  have hfind : ∀ n : Int,
      (uniquePRs prs).find? (fun pr => pr.number == n) = prs.find? (fun pr => pr.number == n) := by
    intro n
    have := dedupGo_find? n prs [] hkeyed
    simpa [uniquePRs, dedupPRs] using this
  have hany : ∀ (l : List PRInfo) (p : PRInfo → Bool), l.any p = (l.find? p).isSome := by
    intro l p
    induction l with
    | nil => rfl
    | cons x t ih =>
      rw [List.any_cons, List.find?_cons]
      cases hpx : p x
      · simpa using ih
      · simp
  refine ⟨?_, ?_, hfind⟩
  · exact keyed_nodup_pairwise (dedupGo_keyed hkeyed prs) (dedupGo_keys_nodup prs [] (by simp))
  · intro n
    rw [hany, hany, hfind n]

/-! ## Author enrichment (`enrichWithAuthors`, generator.go; inline loop in
main.go's `run`) -/

/-- `enrichWithAuthors`: for each classifier entry, copy the author of the
first collected record with a matching number; entries without a match are
left untouched.  The Go loop mutates only the `Author` field. -/
def enrichWithAuthors (changes : List ChangeEntry) (prs : List PRInfo) : List ChangeEntry :=
  changes.map fun c =>
    match prs.find? (fun pr => pr.number == c.prNumber) with
    | some pr => { c with author := pr.author }
    | none => c

/-- C10: author enrichment preserves the list length and order and mutates
only the `author` field: entry `i` of the output agrees with entry `i` of
the input on every other field; when some collected record matches the
entry's number the output author is the first such record's author handle;
when none matches the entry is entirely unchanged (in particular its
author stays empty if it was empty). -/
theorem C10_enrichWithAuthors_frame (changes : List ChangeEntry) (prs : List PRInfo)
    (i : Nat) (h : i < changes.length) :
    (enrichWithAuthors changes prs).length = changes.length ∧
    ((enrichWithAuthors changes prs).getD i default).prNumber = (changes.getD i default).prNumber ∧
    ((enrichWithAuthors changes prs).getD i default).category = (changes.getD i default).category ∧
    ((enrichWithAuthors changes prs).getD i default).description =
      (changes.getD i default).description ∧
    ((enrichWithAuthors changes prs).getD i default).includeScore =
      (changes.getD i default).includeScore ∧
    ((enrichWithAuthors changes prs).getD i default).importanceScore =
      (changes.getD i default).importanceScore ∧
    ((enrichWithAuthors changes prs).getD i default).reusedFromHistory =
      (changes.getD i default).reusedFromHistory ∧
    (match prs.find? (fun pr => pr.number == (changes.getD i default).prNumber) with
     | some pr => ((enrichWithAuthors changes prs).getD i default).author = pr.author
     | none => (enrichWithAuthors changes prs).getD i default = changes.getD i default) := by
  have hlen : (enrichWithAuthors changes prs).length = changes.length := by
    simp [enrichWithAuthors]
  have hget : (enrichWithAuthors changes prs).getD i default =
      (match prs.find? (fun pr => pr.number == (changes.getD i default).prNumber) with
       | some pr => { (changes.getD i default) with author := pr.author }
       | none => changes.getD i default) := by
    rw [List.getD_eq_getElem?_getD, List.getD_eq_getElem?_getD, enrichWithAuthors,
      List.getElem?_map]
    rcases hx : changes[i]? with _ | c
    · rw [List.getElem?_eq_none_iff] at hx
      omega
    · rfl
  refine ⟨hlen, ?_⟩
  rcases hf : prs.find? (fun pr => pr.number == (changes.getD i default).prNumber) with _ | pr
  · rw [hget, hf]
    exact ⟨rfl, rfl, rfl, rfl, rfl, rfl, rfl⟩
  · rw [hget, hf]
    exact ⟨rfl, rfl, rfl, rfl, rfl, rfl, rfl⟩

/-- C10 (witness): a two-entry instance, one matched (author copied from the
record for PR 7) and one unmatched (entry unchanged, author stays empty). -/
theorem C10_enrichWithAuthors_frame_witness :
    ((enrichWithAuthors
        [⟨7, "FIXED", "d", 80, 10, false, ""⟩, ⟨9, "ADDED", "e", 90, 20, false, ""⟩]
        [⟨7, "t", "b", "alice", [], 5⟩]).getD 0 default).author = "alice" ∧
    ((enrichWithAuthors
        [⟨7, "FIXED", "d", 80, 10, false, ""⟩, ⟨9, "ADDED", "e", 90, 20, false, ""⟩]
        [⟨7, "t", "b", "alice", [], 5⟩]).getD 1 default).author = "" := by
  have h0 := (C10_enrichWithAuthors_frame
    [⟨7, "FIXED", "d", 80, 10, false, ""⟩, ⟨9, "ADDED", "e", 90, 20, false, ""⟩]
    [⟨7, "t", "b", "alice", [], 5⟩] 0 (by decide)).2.2.2.2.2.2.2
  have h1 := (C10_enrichWithAuthors_frame
    [⟨7, "FIXED", "d", 80, 10, false, ""⟩, ⟨9, "ADDED", "e", 90, 20, false, ""⟩]
    [⟨7, "t", "b", "alice", [], 5⟩] 1 (by decide)).2.2.2.2.2.2.2
  rw [show (List.find? (fun pr => pr.number ==
      (([⟨7, "FIXED", "d", 80, 10, false, ""⟩, ⟨9, "ADDED", "e", 90, 20, false, ""⟩] :
        List ChangeEntry).getD 0 default).prNumber)
      [(⟨7, "t", "b", "alice", [], 5⟩ : PRInfo)]) =
      some ⟨7, "t", "b", "alice", [], 5⟩ from rfl] at h0
  rw [show (List.find? (fun pr => pr.number ==
      (([⟨7, "FIXED", "d", 80, 10, false, ""⟩, ⟨9, "ADDED", "e", 90, 20, false, ""⟩] :
        List ChangeEntry).getD 1 default).prNumber)
      [(⟨7, "t", "b", "alice", [], 5⟩ : PRInfo)]) = none from rfl] at h1
  exact ⟨h0, congrArg ChangeEntry.author h1⟩

/-! ## HistoricalLedger: `parseCHANGELOG` (generator.go)

The generator scans each historical document line by line; the state is the
current category (empty = none) and the PR cache.  The regex
`\[#(\d+)\]\(https://github\.com/antrea-io/antrea/pull/\d+\)` is embedded
as a leftmost-match scanner: the pattern is deterministic (each `\d+` is
followed by a non-digit literal), so greedy matching without backtracking
is exact. -/

/-- `types.HistoricalPR`. -/
structure HistoricalPR where
  description : String
  category : String
deriving DecidableEq, Repr, Inhabited

/-- The PR cache: a Go `map[int]HistoricalPR` in insertion order. -/
abbrev Ledger := List (Int × HistoricalPR)

/-- `if _, exists := prCache[prNum]; !exists { prCache[prNum] = ... }`. -/
def insertIfAbsent (m : Ledger) (k : Int) (v : HistoricalPR) : Ledger :=
  if (m.lookup k).isSome then m else m ++ [(k, v)]

/-- The literal part of the PR-entry regex between the captured digits and
the second digit run. -/
def prLinkLiteral : List Char :=
  ("](https://github.com/antrea-io/antrea/pull/").data

/-- Try to match the PR-entry regex at the head of `cs`; returns the first
capture group (the digits after `[#`). -/
def matchPRRefAt (cs : List Char) : Option (List Char) :=
  match cs with
  | '[' :: '#' :: rest =>
    let ds := rest.takeWhile Char.isDigit
    if ds = [] then none
    else
      let rest2 := rest.drop ds.length
      if hasPrefixC prLinkLiteral rest2 then
        let rest3 := rest2.drop prLinkLiteral.length
        let ds2 := rest3.takeWhile Char.isDigit
        if ds2 = [] then none
        else
          match rest3.drop ds2.length with
          | ')' :: _ => some ds
          | _ => none
      else none
  | _ => none

/-- Leftmost match of the PR-entry regex (`FindAllStringSubmatch(...)[0][1]`). -/
def findPRRef : List Char → Option (List Char)
  | [] => none
  | c :: rest =>
    match matchPRRefAt (c :: rest) with
    | some ds => some ds
    | none => findPRRef rest

/-- The three category words recognised by the scanner. -/
def IsCategoryWord (cs : List Char) : Prop :=
  cs = "ADDED".data ∨ cs = "CHANGED".data ∨ cs = "FIXED".data

instance decIsCategoryWord (cs : List Char) : Decidable (IsCategoryWord cs) := by
  unfold IsCategoryWord
  infer_instance

/-- The uppercased word of a heading line. -/
def headingWord (line : List Char) : List Char :=
  toUpperC (goTrimSpace (trimPrefixC ("### ").data (goTrimSpace line)))

/-- One iteration of `parseCHANGELOG`'s line loop (generator.go): the state
is `(currentCategory, prCache)`.  A heading sets the category only when it
matches one of the three words (any other heading leaves the state
untouched); a bulleted line under a known category that matches the PR
regex inserts the trimmed description first-occurrence-wins. -/
def parseLineStep (st : List Char × Ledger) (line : List Char) : List Char × Ledger :=
  if hasPrefixC ("### ").data (goTrimSpace line) then
    if IsCategoryWord (headingWord line) then (headingWord line, st.2) else st
  else if hasPrefixC ("- ").data (goTrimSpace line) && !st.1.isEmpty then
    match findPRRef line with
    | none => st
    | some ds =>
      match goAtoi ds with
      | none => st
      | some prNum =>
        match indexOfSub ("([#").data line with
        | none => st
        | some d =>
          if d > 0 then
            (st.1, insertIfAbsent st.2 prNum
              ⟨⟨trimSuffixC (".").data (trimPrefixC ("*OPTIONAL* ").data
                  (goTrimSpace ((line.drop 2).take (d - 2))))⟩, ⟨st.1⟩⟩)
          else st
  else st

/-- `parseCHANGELOG` (generator.go): scan all lines, starting with no
category and the caller's cache. -/
def parseCHANGELOG (content : String) (prCache : Ledger) : Ledger :=
  ((splitLinesC content.data).foldl parseLineStep ([], prCache)).2

theorem lookup_append_left {m m2 : Ledger} {n : Int} {e : HistoricalPR}
    (h : m.lookup n = some e) : (m ++ m2).lookup n = some e := by
  induction m with
  | nil => simp [List.lookup] at h
  | cons kv t ih =>
    rw [List.cons_append, List.lookup_cons] at *
    split at h
    · exact h
    · exact ih h

theorem insertIfAbsent_preserves {m : Ledger} {n : Int} {e : HistoricalPR}
    (h : m.lookup n = some e) (k : Int) (v : HistoricalPR) :
    (insertIfAbsent m k v).lookup n = some e := by
  unfold insertIfAbsent
  split
  · exact h
  · exact lookup_append_left h

theorem parseLineStep_preserves (st : List Char × Ledger) (line : List Char)
    {n : Int} {e : HistoricalPR} (h : st.2.lookup n = some e) :
    ((parseLineStep st line).2).lookup n = some e := by
  unfold parseLineStep
  repeat' split
  all_goals first
    | exact h
    | exact insertIfAbsent_preserves h _ _

theorem parseLines_preserves (lines : List (List Char)) :
    ∀ (st : List Char × Ledger) {n : Int} {e : HistoricalPR},
      st.2.lookup n = some e → ((lines.foldl parseLineStep st).2).lookup n = some e := by
  induction lines with
  | nil => intro st n e h; exact h
  | cons line rest ih =>
    intro st n e h
    exact ih (parseLineStep st line) (parseLineStep_preserves st line h)

/-- First-occurrence-wins is monotone: a binding already in the cache is
never overwritten by scanning another document. -/
theorem parseCHANGELOG_preserves (content : String) {cache : Ledger} {n : Int}
    {e : HistoricalPR} (h : cache.lookup n = some e) :
    (parseCHANGELOG content cache).lookup n = some e := by
  unfold parseCHANGELOG
  exact parseLines_preserves _ ([], cache) h

/-! ## HistoricalLedger: document discovery order and ledger construction
(`fetchHistoricalCHANGELOGs`, generator.go)

The document list (name plus the `X.Y.0` version extracted from
`CHANGELOG-X.Y.md`) is sorted version-descending with `sort.Slice`;
the in-place sort is rendered functionally as an insertion sort over the
`GreaterThan` comparator (the claims proved below involve two documents
with distinct versions, where every comparison sort agrees).  Fetching is
an oracle `String → Except Unit String`. -/

/-- A located historical document: file name and embedded version. -/
structure ChangelogFile where
  name : String
  version : Version
deriving DecidableEq, Repr, Inhabited

def insertByVersion (f : ChangelogFile) : List ChangelogFile → List ChangelogFile
  | [] => [f]
  | g :: t => if f.version.GreaterThan g.version then f :: g :: t else g :: insertByVersion f t

/-- `sort.Slice(changelogFiles, GreaterThan)` — version descending. -/
def sortChangelogFiles (files : List ChangelogFile) : List ChangelogFile :=
  files.foldl (fun acc f => insertByVersion f acc) []

/-- The ledger loop of `fetchHistoricalCHANGELOGs` (generator.go lines
185-195): parse every document, in sorted order, into the shared cache;
a fetch failure is logged and the document is skipped. -/
def buildPRCache (fetch : String → Except Unit String) (sorted : List ChangelogFile) : Ledger :=
  sorted.foldl
    (fun cache f =>
      match fetch f.name with
      | .ok content => parseCHANGELOG content cache
      | .error _ => cache)
    []

/-- The style-excerpt loop of `fetchHistoricalCHANGELOGs` (generator.go
lines 198-213): re-fetch the most recent documents; a fetch failure here
aborts with an error. -/
def buildStyleContent (fetch : String → Except Unit String) :
    List ChangelogFile → Except Unit String
  | [] => .ok ""
  | f :: fs =>
    match fetch f.name with
    | .error e => .error e
    | .ok content =>
      match buildStyleContent fetch fs with
      | .error e => .error e
      | .ok restStr => .ok ("\n\n=== " ++ f.name ++ " ===\n\n" ++ content ++ restStr)

/-- `fetchHistoricalCHANGELOGs` (generator.go), from the point where the
documents have been located: sort version-descending, build the ledger
from all documents (skipping fetch failures), then build the style excerpt
from the `min 3` most recent (failures abort). -/
def fetchHistoricalCHANGELOGs (fetch : String → Except Unit String)
    (files : List ChangelogFile) : Except Unit (String × Ledger) :=
  match buildStyleContent fetch
      ((sortChangelogFiles files).take (min 3 (sortChangelogFiles files).length)) with
  | .error e => .error e
  | .ok s => .ok (s, buildPRCache fetch (sortChangelogFiles files))

theorem GreaterThan_asymm {a b : Version} (h : a.GreaterThan b = true) :
    b.GreaterThan a = false := by
  unfold Version.GreaterThan at h ⊢
  split_ifs at h ⊢ <;> simp_all <;> omega

/-- C3: when two historical documents of different versions both contain an
entry for the same PR number, the ledger (built by scanning documents
version-descending, first occurrence per number wins) stores the
description and category that the higher-version document yields for that
number — whichever order the documents were listed in. -/
theorem C3_ledger_higher_version_wins (fetch : String → Except Unit String)
    (fA fB : ChangelogFile) (cA : String) (n : Int) (e : HistoricalPR)
    (hgt : fA.version.GreaterThan fB.version = true)
    (hfA : fetch fA.name = .ok cA)
    (hn : (parseCHANGELOG cA []).lookup n = some e) :
    (buildPRCache fetch (sortChangelogFiles [fA, fB])).lookup n = some e ∧
    (buildPRCache fetch (sortChangelogFiles [fB, fA])).lookup n = some e := by
  have hlt : fB.version.GreaterThan fA.version = false := GreaterThan_asymm hgt
  have hsort1 : sortChangelogFiles [fA, fB] = [fA, fB] := by
    unfold sortChangelogFiles
    simp only [List.foldl_cons, List.foldl_nil, insertByVersion]
    rw [hlt]
    simp
  have hsort2 : sortChangelogFiles [fB, fA] = [fA, fB] := by
    unfold sortChangelogFiles
    simp only [List.foldl_cons, List.foldl_nil, insertByVersion]
    rw [hgt]
    simp
  have hbuild : (buildPRCache fetch [fA, fB]).lookup n = some e := by
    unfold buildPRCache
    simp only [List.foldl_cons, List.foldl_nil, hfA]
    rcases hfB : fetch fB.name with _ | cB
    · exact hn
    · exact parseCHANGELOG_preserves cB hn
  constructor
  · rw [hsort1]
    exact hbuild
  · rw [hsort2]
    exact hbuild

/-- C3 (witness): two concrete one-entry documents for PR 7 with different
wording; the 2.1 document's wording wins over the 2.0 one in both listing
orders. -/
theorem C3_ledger_higher_version_wins_witness :
    (buildPRCache
      (fun name => if name = "CHANGELOG-2.1.md"
        then .ok "### Fixed\n- New wording. ([#7](https://github.com/antrea-io/antrea/pull/7), [@a])"
        else .ok "### Changed\n- Old wording. ([#7](https://github.com/antrea-io/antrea/pull/7), [@a])")
      (sortChangelogFiles
        [⟨"CHANGELOG-2.1.md", ⟨2, 1, 0⟩⟩, ⟨"CHANGELOG-2.0.md", ⟨2, 0, 0⟩⟩])).lookup 7 =
      some ⟨"New wording", "FIXED"⟩ ∧
    (buildPRCache
      (fun name => if name = "CHANGELOG-2.1.md"
        then .ok "### Fixed\n- New wording. ([#7](https://github.com/antrea-io/antrea/pull/7), [@a])"
        else .ok "### Changed\n- Old wording. ([#7](https://github.com/antrea-io/antrea/pull/7), [@a])")
      (sortChangelogFiles
        [⟨"CHANGELOG-2.0.md", ⟨2, 0, 0⟩⟩, ⟨"CHANGELOG-2.1.md", ⟨2, 1, 0⟩⟩])).lookup 7 =
      some ⟨"New wording", "FIXED"⟩ :=
  C3_ledger_higher_version_wins
    (fun name => if name = "CHANGELOG-2.1.md"
      then .ok "### Fixed\n- New wording. ([#7](https://github.com/antrea-io/antrea/pull/7), [@a])"
      else .ok "### Changed\n- Old wording. ([#7](https://github.com/antrea-io/antrea/pull/7), [@a])")
    ⟨"CHANGELOG-2.1.md", ⟨2, 1, 0⟩⟩ ⟨"CHANGELOG-2.0.md", ⟨2, 0, 0⟩⟩
    "### Fixed\n- New wording. ([#7](https://github.com/antrea-io/antrea/pull/7), [@a])"
    7 ⟨"New wording", "FIXED"⟩ (by decide) (by rfl) (by decide)

/-- C8 (counterexample): after a matching `### Added` heading, the
non-matching heading `### Deprecated` does NOT clear category tracking:
the bulleted line that follows is still attributed to ADDED, contradicting
the claim that such lines must not be attributed to the previously active
category. -/
theorem C8_heading_counterexample :
    (parseCHANGELOG
      "### Added\n### Deprecated\n- Fix the thing. ([#5](https://github.com/antrea-io/antrea/pull/5), [@bob])"
      []).lookup 5 = some ⟨"Fix the thing", "ADDED"⟩ := by
  decide

/-- C8 (amended): a heading line of the fixed marker level sets the current
category when it case-insensitively matches ADDED, CHANGED or FIXED;
any other heading line is a complete no-op of the scan (it neither sets nor
clears category tracking), so bulleted lines after a non-matching heading
are attributed exactly as if the heading were absent — in particular still
to the previously active category. -/
theorem C8_heading_behaviour (pre post : List (List Char)) (hline : List Char)
    (st : List Char × Ledger)
    (hheading : hasPrefixC ("### ").data (goTrimSpace hline) = true) :
    (¬ IsCategoryWord (headingWord hline) →
      (pre ++ hline :: post).foldl parseLineStep st = (pre ++ post).foldl parseLineStep st) ∧
    (IsCategoryWord (headingWord hline) →
      parseLineStep st hline = (headingWord hline, st.2)) := by
  constructor
  · intro hnm
    rw [List.foldl_append, List.foldl_append, List.foldl_cons]
    have hstep : ∀ st0 : List Char × Ledger, parseLineStep st0 hline = st0 := by
      intro st0
      unfold parseLineStep
      rw [if_pos hheading, if_neg hnm]
    rw [hstep]
  · intro hm
    unfold parseLineStep
    rw [if_pos hheading, if_pos hm]

/-- C8 (witness): a non-matching heading inserted between a matching
heading and a bullet changes nothing, and a matching heading sets the
category. -/
theorem C8_heading_behaviour_witness :
    ((["### Added".data] ++ ("### Deprecated").data ::
        [("- Fix it. ([#5](https://github.com/antrea-io/antrea/pull/5), [@b])").data]).foldl
        parseLineStep ([], []) =
      (["### Added".data] ++
        [("- Fix it. ([#5](https://github.com/antrea-io/antrea/pull/5), [@b])").data]).foldl
        parseLineStep ([], [])) ∧
    parseLineStep ([], []) (("### Fixed").data) = ("FIXED".data, []) := by
  constructor
  · exact (C8_heading_behaviour ["### Added".data]
      [("- Fix it. ([#5](https://github.com/antrea-io/antrea/pull/5), [@b])").data]
      (("### Deprecated").data) ([], []) (by decide)).1 (by decide)
  · have h := (C8_heading_behaviour [] [] (("### Fixed").data) ([], []) (by decide)).2 (by decide)
    rw [h]
    decide

/-- Folding the parses of a list of already-fetched documents into an
empty ledger. -/
def ledgerOfDocs (docs : List String) : Ledger :=
  docs.foldl (fun cache c => parseCHANGELOG c cache) []

theorem buildStyleContent_isOk (fetch : String → Except Unit String) :
    ∀ fs : List ChangelogFile,
      (buildStyleContent fetch fs).isOk = true ↔ ∀ f ∈ fs, (fetch f.name).isOk = true := by
  intro fs
  induction fs with
  | nil => simp [buildStyleContent, Except.isOk, Except.toBool]
  | cons f t ih =>
    constructor
    · intro h g hg
      unfold buildStyleContent at h
      rcases hf : fetch f.name with e | c
      · rw [hf] at h
        simp [Except.isOk, Except.toBool] at h
      · rcases List.mem_cons.1 hg with rfl | hgt
        · rw [hf]
          rfl
        · rw [hf] at h
          rcases hs : buildStyleContent fetch t with e2 | s2
          · rw [hs] at h
            simp [Except.isOk, Except.toBool] at h
          · exact ih.1 (by rw [hs]; rfl) g hgt
    · intro h
      unfold buildStyleContent
      rcases hf : fetch f.name with e | c
      · have := h f (List.mem_cons_self f t)
        rw [hf] at this
        simp [Except.isOk, Except.toBool] at this
      · have ht : (buildStyleContent fetch t).isOk = true :=
          ih.2 fun g hg => h g (List.mem_cons_of_mem f hg)
        rcases hs : buildStyleContent fetch t with e2 | s2
        · rw [hs] at ht
          simp [Except.isOk, Except.toBool] at ht
        · rfl

theorem buildPRCache_eq_ledgerOfDocs (fetch : String → Except Unit String) :
    ∀ (fs : List ChangelogFile) (cache : Ledger),
      fs.foldl
        (fun cache f =>
          match fetch f.name with
          | .ok content => parseCHANGELOG content cache
          | .error _ => cache) cache =
      (fs.filterMap fun f => (fetch f.name).toOption).foldl
        (fun cache c => parseCHANGELOG c cache) cache := by
  intro fs
  induction fs with
  | nil => intro cache; rfl
  | cons f t ih =>
    intro cache
    rw [List.foldl_cons, List.filterMap_cons]
    rcases hf : fetch f.name with e | c
    · rw [show (Except.error e : Except Unit String).toOption = none from rfl]
      exact ih cache
    · rw [show (Except.ok c : Except Unit String).toOption = some c from rfl]
      rw [List.foldl_cons]
      exact ih (parseCHANGELOG c cache)

/-- C7 (amended): during ledger construction a document-fetch failure is
logged and skipped — the ledger is built from exactly the documents that
do fetch (in version-descending order); the run aborts if and only if
fetching one of the (up to) 3 most recent documents fails while building
the style excerpt. -/
theorem C7_fetch_failure_behaviour (fetch : String → Except Unit String)
    (files : List ChangelogFile) :
    ((fetchHistoricalCHANGELOGs fetch files).isOk = true ↔
      ∀ f ∈ (sortChangelogFiles files).take (min 3 (sortChangelogFiles files).length),
        (fetch f.name).isOk = true) ∧
    buildPRCache fetch (sortChangelogFiles files) =
      ledgerOfDocs ((sortChangelogFiles files).filterMap fun f => (fetch f.name).toOption) := by
  constructor
  · have hmain : (fetchHistoricalCHANGELOGs fetch files).isOk =
        (buildStyleContent fetch
          ((sortChangelogFiles files).take (min 3 (sortChangelogFiles files).length))).isOk := by
      unfold fetchHistoricalCHANGELOGs
      rcases hs : buildStyleContent fetch
          ((sortChangelogFiles files).take (min 3 (sortChangelogFiles files).length)) with e | s
      · rfl
      · rfl
    rw [hmain]
    exact buildStyleContent_isOk fetch _
  · unfold buildPRCache ledgerOfDocs
    exact buildPRCache_eq_ledgerOfDocs fetch _ []

/-- A concrete document for the C7 counterexample. -/
def c7doc : String :=
  "### Fixed\n- Fix a bug. ([#42](https://github.com/antrea-io/antrea/pull/42), [@ann])"

/-- A fetch oracle that fails on the oldest located document only. -/
def c7fetch : String → Except Unit String := fun name =>
  if name = "CHANGELOG-1.9.md" then .error ()
  else if name = "CHANGELOG-2.2.md" then .ok c7doc
  else .ok ""

/-- Four located documents; the oldest one will fail to fetch. -/
def c7files : List ChangelogFile :=
  [⟨"CHANGELOG-1.9.md", ⟨1, 9, 0⟩⟩, ⟨"CHANGELOG-2.2.md", ⟨2, 2, 0⟩⟩,
   ⟨"CHANGELOG-2.0.md", ⟨2, 0, 0⟩⟩, ⟨"CHANGELOG-2.1.md", ⟨2, 1, 0⟩⟩]

/-- C7 (counterexample): fetching located document CHANGELOG-1.9.md fails,
yet the run does not abort: `fetchHistoricalCHANGELOGs` returns `ok` and
the ledger is produced from the remaining documents (it contains the entry
for PR 42 from CHANGELOG-2.2.md).  The claim says any document-fetch
failure aborts the run with no ledger. -/
theorem C7_fetch_failure_counterexample :
    (c7fetch "CHANGELOG-1.9.md").isOk = false ∧
    (fetchHistoricalCHANGELOGs c7fetch c7files).isOk = true ∧
    ((fetchHistoricalCHANGELOGs c7fetch c7files).toOption.map fun sc => sc.2.lookup 42) =
      some (some ⟨"Fix a bug", "FIXED"⟩) := by
  refine ⟨rfl, rfl, ?_⟩
  rfl

/-! ## Cherry-pick resolution (`handleCherryPicks`, generator.go)

Pagination is flattened: the Go loop walks pages of closed PRs in order and
the page boundary is invisible to the per-record logic, so the listing is
embedded as one list of `Pull`.  The early `return prs` on the first record
merged before `since` is the recursion base returning `[]`.  `GetPullRequest`
is an oracle `Int → Except Unit PRInfo`; a failed original-PR fetch is
logged and skipped, exactly as in the source. -/

/-- Fuelled scanner for the `#(\d+)` regex; the fuel is an upper bound on
the number of scan steps (each step consumes at least one character). -/
def findAllRefsGo (fuel : Nat) : List Char → List (List Char)
  | [] => []
  | c :: rest =>
    match fuel with
    | 0 => []
    | fuel2 + 1 =>
      if c = '#' then
        match rest.takeWhile Char.isDigit with
        | [] => findAllRefsGo fuel2 rest
        | d :: ds => (d :: ds) :: findAllRefsGo fuel2 (rest.drop (d :: ds).length)
      else findAllRefsGo fuel2 rest

/-- All non-overlapping, leftmost matches of the `#(\d+)` regex: the digit
runs directly following a `#`. -/
def findAllRefs (cs : List Char) : List (List Char) :=
  findAllRefsGo cs.length cs

/-- The records emitted for one cherry-pick pull: for every referenced
number, fetch the original PR and re-emit it with the cherry-pick's own
merge time (`MergedAt: pull.MergedAt.Time`). -/
def cherryPickEmits (getPR : Int → Except Unit PRInfo) (pull : Pull) (t : Int) : List PRInfo :=
  (findAllRefs pull.body.data).filterMap fun ds =>
    match goAtoi ds with
    | none => none
    | some prNum =>
      match getPR prNum with
      | .error _ => none
      | .ok orig =>
        some { number := orig.number, title := orig.title, body := orig.body,
               author := orig.author, labels := orig.labels, mergedAt := t }

/-- `handleCherryPicks` (generator.go): walk the closed-PR listing;
unmerged records are skipped, the first record merged before `since`
terminates the walk, and each remaining record carrying the
`kind/cherry-pick` label contributes its resolved originals. -/
def handleCherryPicks (getPR : Int → Except Unit PRInfo) (since : Int) :
    List Pull → List PRInfo
  | [] => []
  | pull :: rest =>
    match pull.mergedAt with
    | none => handleCherryPicks getPR since rest
    | some t =>
      if t < since then []
      else if pull.labels.contains "kind/cherry-pick" then
        cherryPickEmits getPR pull t ++ handleCherryPicks getPR since rest
      else handleCherryPicks getPR since rest

/-- C5: a cherry-pick record inside the collection window (and reached by
the walk: no earlier record in the listing is merged before the window
start) that references an original PR number in its body makes the
collector emit a record carrying the original's number, title, body,
author and labels, but with the cherry-pick's own merge time. -/
theorem C5_cherryPick_resolution (getPR : Int → Except Unit PRInfo) (since : Int)
    (pre post : List Pull) (pull : Pull) (t : Int) (ds : List Char) (prNum : Int)
    (orig : PRInfo)
    (hpre : ∀ q ∈ pre, q.mergedAt = none ∨ ∃ tq, q.mergedAt = some tq ∧ ¬ tq < since)
    (hmerge : pull.mergedAt = some t)
    (hwindow : ¬ t < since)
    (hlabel : pull.labels.contains "kind/cherry-pick" = true)
    (href : ds ∈ findAllRefs pull.body.data)
    (hnum : goAtoi ds = some prNum)
    (hget : getPR prNum = .ok orig) :
    { number := orig.number, title := orig.title, body := orig.body, author := orig.author,
      labels := orig.labels, mergedAt := t } ∈
      handleCherryPicks getPR since (pre ++ pull :: post) := by
  induction pre with
  | nil =>
    rw [List.nil_append]
    unfold handleCherryPicks
    rw [hmerge]
    simp only [if_neg hwindow, hlabel, if_pos]
    refine List.mem_append.2 (Or.inl ?_)
    unfold cherryPickEmits
    refine List.mem_filterMap.2 ⟨ds, href, ?_⟩
    simp [hnum, hget]
  | cons q qre ih =>
    have hq := hpre q (List.mem_cons_self q qre)
    have hrest : ∀ r ∈ qre, r.mergedAt = none ∨ ∃ tr, r.mergedAt = some tr ∧ ¬ tr < since :=
      fun r hr => hpre r (List.mem_cons_of_mem q hr)
    rw [List.cons_append]
    unfold handleCherryPicks
    rcases hq with hnone | ⟨tq, htq, hge⟩
    · rw [hnone]
      exact ih hrest
    · rw [htq]
      simp only [if_neg hge]
      by_cases hl : q.labels.contains "kind/cherry-pick" = true
      · rw [if_pos hl]
        exact List.mem_append.2 (Or.inr (ih hrest))
      · rw [if_neg hl]
        exact ih hrest

/-- C5 (witness): a cherry-pick merged at time 20 referencing PR 100
(originally merged at time 50 on another branch) re-emits PR 100's
content with merge time 20. -/
theorem C5_cherryPick_resolution_witness :
    ({ number := 100, title := "T", body := "B", author := "ann",
       labels := ["action/release-note"], mergedAt := 20 } : PRInfo) ∈
      handleCherryPicks
        (fun n => if n = 100
          then .ok ⟨100, "T", "B", "ann", ["action/release-note"], 50⟩
          else .error ())
        10
        [⟨200, "cp", "Cherry-pick of #100", "bob", ["kind/cherry-pick"], some 20⟩] :=
  C5_cherryPick_resolution
    (fun n => if n = 100
      then .ok ⟨100, "T", "B", "ann", ["action/release-note"], 50⟩
      else .error ())
    10 [] [] ⟨200, "cp", "Cherry-pick of #100", "bob", ["kind/cherry-pick"], some 20⟩
    20 ("100").data 100 ⟨100, "T", "B", "ann", ["action/release-note"], 50⟩
    (by intro q hq; cases hq) rfl (by decide) (by decide) (by decide) (by decide) (by rfl)

/-! ## `sort.Slice` (Go runtime `pdqsort_func`, sort/zsortfunc.go)

`formatChangelog` ranks each category bucket with `sort.Slice`, which is
Go's pattern-defeating quicksort and is NOT a stable sort.  To settle the
stability claim the algorithm is ported index-for-index: the slice is a
`List ChangeEntry`, `data.Swap` is `listSwap`, `data.Less(i, j)` is
`lessAt` (importance score, descending), and every loop carries explicit
fuel (always called with fuel exceeding the loop's bound, so the fuel-out
branches are unreachable).  The in-place insertion sort on a subrange is
rendered functionally (`goInsertionSortL`, the left-to-right insertion
sort, which is what the in-place loop computes). -/

/-- The comparator closure of `sort.Slice` in `formatChangelog`:
`changes[i].ImportanceScore > changes[j].ImportanceScore`. -/
def lessAt (l : List ChangeEntry) (i j : Nat) : Bool :=
  (l.getD i default).importanceScore > (l.getD j default).importanceScore

/-- `data.Swap(i, j)` (out-of-range indices never occur in the ported
calls; the guard keeps the function total). -/
def listSwap (l : List ChangeEntry) (i j : Nat) : List ChangeEntry :=
  if i < l.length ∧ j < l.length then
    (l.set i (l.getD j default)).set j (l.getD i default)
  else l

/-- `bits.Len(uint(n))`. -/
def bitsLen (n : Nat) : Nat :=
  if n = 0 then 0 else n.log2 + 1

/-- Insert into a descending-sorted prefix: the element is placed before
the first strictly smaller one, i.e. after every element with an equal or
larger score — exactly where the in-place inner loop of Go's
`insertionSort_func` stops moving it. -/
def goOrderedInsert (x : ChangeEntry) : List ChangeEntry → List ChangeEntry
  | [] => [x]
  | y :: ys =>
    if x.importanceScore > y.importanceScore then x :: y :: ys
    else y :: goOrderedInsert x ys

/-- `insertionSort_func`: left-to-right insertion. -/
def goInsertionSortL (l : List ChangeEntry) : List ChangeEntry :=
  l.foldl (fun acc x => goOrderedInsert x acc) []

/-- `insertionSort_func(data, a, b)` on the subrange `[a, b)`. -/
def insertionSortRange (l : List ChangeEntry) (a b : Nat) : List ChangeEntry :=
  l.take a ++ goInsertionSortL ((l.drop a).take (b - a)) ++ (l.drop a).drop (b - a)

/-- The child selected by one `siftDown_func` step (the larger of the two
children of `root`). -/
def siftChild (l : List ChangeEntry) (root hi first : Nat) : Nat :=
  if 2 * root + 1 + 1 < hi && lessAt l (first + (2 * root + 1)) (first + (2 * root + 1) + 1)
  then 2 * root + 1 + 1
  else 2 * root + 1

/-- `siftDown_func`. -/
def siftDownGo (fuel : Nat) (l : List ChangeEntry) (root hi first : Nat) : List ChangeEntry :=
  match fuel with
  | 0 => l
  | fuel2 + 1 =>
    if 2 * root + 1 ≥ hi then l
    else if !(lessAt l (first + root) (first + siftChild l root hi first)) then l
    else
      siftDownGo fuel2 (listSwap l (first + root) (first + siftChild l root hi first))
        (siftChild l root hi first) hi first

/-- `heapSort_func(data, a, b)`. -/
def heapSortGo (l : List ChangeEntry) (a b : Nat) : List ChangeEntry :=
  let hi := b - a
  let l1 := (List.range ((hi - 1) / 2 + 1)).reverse.foldl
    (fun acc i => siftDownGo (hi + 1) acc i hi a) l
  (List.range hi).reverse.foldl
    (fun acc i => siftDownGo (hi + 1) (listSwap acc a (a + i)) 0 i a) l1

/-- `order2_func`: returns the two indices in order, counting swaps. -/
def order2Go (l : List ChangeEntry) (a b swaps : Nat) : Nat × Nat × Nat :=
  if lessAt l b a then (b, a, swaps + 1) else (a, b, swaps)

/-- `median_func`: index of the median of three, counting swaps. -/
def medianGo (l : List ChangeEntry) (a b c swaps : Nat) : Nat × Nat :=
  let r1 := order2Go l a b swaps
  let r2 := order2Go l r1.2.1 c r1.2.2
  let r3 := order2Go l r1.1 r2.1 r2.2.2
  (r3.2.1, r3.2.2)

/-- `medianAdjacent_func`. -/
def medianAdjacentGo (l : List ChangeEntry) (a swaps : Nat) : Nat × Nat :=
  medianGo l (a - 1) a (a + 1) swaps

/-- `sortedHint`. -/
inductive GoHint where
  | inc
  | dec
  | unknownHint
deriving DecidableEq, Repr, Inhabited

/-- `choosePivot_func`: median (or ninther) pivot plus a sortedness hint. -/
def choosePivotGo (l : List ChangeEntry) (a b : Nat) : Nat × GoHint :=
  let len := b - a
  let i := a + len / 4 * 1
  let j := a + len / 4 * 2
  let k := a + len / 4 * 3
  if len ≥ 8 then
    if len ≥ 50 then
      let m1 := medianAdjacentGo l i 0
      let m2 := medianAdjacentGo l j m1.2
      let m3 := medianAdjacentGo l k m2.2
      let m4 := medianGo l m1.1 m2.1 m3.1 m3.2
      (m4.1, if m4.2 = 0 then .inc else if m4.2 = 12 then .dec else .unknownHint)
    else
      let m4 := medianGo l i j k 0
      (m4.1, if m4.2 = 0 then .inc else if m4.2 = 12 then .dec else .unknownHint)
  else
    (j, .inc)

/-- `reverseRange_func` (called with `i = a`, `j = b - 1`). -/
def reverseRangeGo (fuel : Nat) (l : List ChangeEntry) (i j : Nat) : List ChangeEntry :=
  match fuel with
  | 0 => l
  | fuel2 + 1 =>
    if i < j then reverseRangeGo fuel2 (listSwap l i j) (i + 1) (j - 1) else l

/-- The scan `for i < b && !data.Less(i, i-1) { i++ }`. -/
def skipSorted (fuel : Nat) (l : List ChangeEntry) (b i : Nat) : Nat :=
  match fuel with
  | 0 => i
  | fuel2 + 1 =>
    if i < b && !(lessAt l i (i - 1)) then skipSorted fuel2 l b (i + 1) else i

/-- The left shift loop of `partialInsertionSort_func`. -/
def shiftLeftGo (fuel : Nat) (l : List ChangeEntry) (j : Nat) : List ChangeEntry :=
  match fuel with
  | 0 => l
  | fuel2 + 1 =>
    if j ≥ 1 then
      if !(lessAt l j (j - 1)) then l
      else shiftLeftGo fuel2 (listSwap l j (j - 1)) (j - 1)
    else l

/-- The right shift loop of `partialInsertionSort_func`. -/
def shiftRightGo (fuel : Nat) (l : List ChangeEntry) (b j : Nat) : List ChangeEntry :=
  match fuel with
  | 0 => l
  | fuel2 + 1 =>
    if j < b then
      if !(lessAt l j (j - 1)) then l
      else shiftRightGo fuel2 (listSwap l j (j - 1)) b (j + 1)
    else l

/-- `partialInsertionSort_func`: at most 5 adjacent out-of-order pairs are
repaired (with shifting only for ranges of at least 50); returns whether
the range ended up sorted. -/
def partialInsertionSortGo (steps : Nat) (l : List ChangeEntry) (a b i : Nat) :
    Bool × List ChangeEntry :=
  match steps with
  | 0 => (false, l)
  | steps2 + 1 =>
    let i2 := skipSorted (b + 1) l b i
    if i2 = b then (true, l)
    else if b - a < 50 then (false, l)
    else
      let l2 := listSwap l i2 (i2 - 1)
      let l3 := if i2 - a ≥ 2 then shiftLeftGo (i2 + 1) l2 (i2 - 1) else l2
      let l4 := if b - i2 ≥ 2 then shiftRightGo (b + 1) l3 b (i2 + 1) else l3
      partialInsertionSortGo steps2 l4 a b i2

/-- `xorshift.Next` (64-bit). -/
def xorshiftNext (r : Nat) : Nat :=
  let r1 := (r ^^^ (r <<< 13)) % 2 ^ 64
  let r2 := r1 ^^^ (r1 >>> 7)
  (r2 ^^^ (r2 <<< 17)) % 2 ^ 64

/-- `breakPatterns_func`: three pseudo-random swaps around the midpoint
(the xorshift state is seeded with the range length). -/
def breakPatternsGo (l : List ChangeEntry) (a b : Nat) : List ChangeEntry :=
  let len := b - a
  if len ≥ 8 then
    let modulus := 2 ^ bitsLen len
    let idx := a + len / 4 * 2 - 1
    let r1 := xorshiftNext len
    let o1 := (fun o => if o ≥ len then o - len else o) (r1 &&& (modulus - 1))
    let l1 := listSwap l (idx - 1 + 0) (a + o1)
    let r2 := xorshiftNext r1
    let o2 := (fun o => if o ≥ len then o - len else o) (r2 &&& (modulus - 1))
    let l2 := listSwap l1 (idx - 1 + 1) (a + o2)
    let r3 := xorshiftNext r2
    let o3 := (fun o => if o ≥ len then o - len else o) (r3 &&& (modulus - 1))
    listSwap l2 (idx - 1 + 2) (a + o3)
  else l

/-- The scan `for i <= j && data.Less(i, a) { i++ }`. -/
def skipLess (fuel : Nat) (l : List ChangeEntry) (a j i : Nat) : Nat :=
  match fuel with
  | 0 => i
  | fuel2 + 1 =>
    if i ≤ j && lessAt l i a then skipLess fuel2 l a j (i + 1) else i

/-- The scan `for i <= j && !data.Less(j, a) { j-- }`. -/
def skipGeq (fuel : Nat) (l : List ChangeEntry) (a i j : Nat) : Nat :=
  match fuel with
  | 0 => j
  | fuel2 + 1 =>
    if i ≤ j && !(lessAt l j a) then skipGeq fuel2 l a i (j - 1) else j

/-- The main loop of `partition_func` (entered after the first exchange). -/
def partitionLoop (fuel : Nat) (l : List ChangeEntry) (a b i j : Nat) :
    Nat × List ChangeEntry :=
  match fuel with
  | 0 => (j, l)
  | fuel2 + 1 =>
    let i2 := skipLess (b + 1) l a j i
    let j2 := skipGeq (b + 1) l a i2 j
    if i2 > j2 then (j2, listSwap l j2 a)
    else partitionLoop fuel2 (listSwap l i2 j2) a b (i2 + 1) (j2 - 1)

/-- `partition_func(data, a, b, pivot)`: Hoare partition with the pivot
parked at `a`; returns the pivot's final position, whether the range was
already partitioned, and the permuted data. -/
def partitionGo (l0 : List ChangeEntry) (a b pivot : Nat) :
    Nat × Bool × List ChangeEntry :=
  let l := listSwap l0 a pivot
  let i := skipLess (b + 1) l a (b - 1) (a + 1)
  let j := skipGeq (b + 1) l a i (b - 1)
  if i > j then (j, true, listSwap l j a)
  else
    let r := partitionLoop (b + 1) (listSwap l i j) a b (i + 1) (j - 1)
    (r.1, false, r.2)

/-- The scan `for i <= j && !data.Less(a, i) { i++ }`. -/
def skipNotLess (fuel : Nat) (l : List ChangeEntry) (a j i : Nat) : Nat :=
  match fuel with
  | 0 => i
  | fuel2 + 1 =>
    if i ≤ j && !(lessAt l a i) then skipNotLess fuel2 l a j (i + 1) else i

/-- The scan `for i <= j && data.Less(a, j) { j-- }`. -/
def skipLessJ (fuel : Nat) (l : List ChangeEntry) (a i j : Nat) : Nat :=
  match fuel with
  | 0 => j
  | fuel2 + 1 =>
    if i ≤ j && lessAt l a j then skipLessJ fuel2 l a i (j - 1) else j

/-- The loop of `partitionEqual_func`. -/
def partitionEqualLoop (fuel : Nat) (l : List ChangeEntry) (a b i j : Nat) :
    Nat × List ChangeEntry :=
  match fuel with
  | 0 => (i, l)
  | fuel2 + 1 =>
    let i2 := skipNotLess (b + 1) l a j i
    let j2 := skipLessJ (b + 1) l a i2 j
    if i2 > j2 then (i2, l)
    else partitionEqualLoop fuel2 (listSwap l i2 j2) a b (i2 + 1) (j2 - 1)

/-- `partitionEqual_func(data, a, b, pivot)`. -/
def partitionEqualGo (l0 : List ChangeEntry) (a b pivot : Nat) : Nat × List ChangeEntry :=
  partitionEqualLoop (b + 1) (listSwap l0 a pivot) a b (a + 1) (b - 1)

/-- `pdqsort_func(data, a, b, limit)`: the main recursion; the outer `for`
loop is the tail call on the larger half, the explicit recursive call
(with fresh `wasBalanced`/`wasPartitioned`) handles the smaller half. -/
def pdqsortGo (fuel : Nat) (l : List ChangeEntry) (a b limit : Nat)
    (wasBalanced wasPartitioned : Bool) : List ChangeEntry :=
  match fuel with
  | 0 => l
  | fuel2 + 1 =>
    if b - a ≤ 12 then insertionSortRange l a b
    else if limit = 0 then heapSortGo l a b
    else
      let lA := if !wasBalanced then breakPatternsGo l a b else l
      let limitA := if !wasBalanced then limit - 1 else limit
      let cp := choosePivotGo lA a b
      let lB := if cp.2 = GoHint.dec then reverseRangeGo (b + 1) lA a (b - 1) else lA
      let pivot := if cp.2 = GoHint.dec then (b - 1) - (cp.1 - a) else cp.1
      let hint := if cp.2 = GoHint.dec then GoHint.inc else cp.2
      let pres :=
        if wasBalanced = true ∧ wasPartitioned = true ∧ hint = GoHint.inc then
          partialInsertionSortGo 5 lB a b (a + 1)
        else (false, lB)
      if pres.1 then pres.2
      else
        let lC := pres.2
        if 0 < a ∧ lessAt lC (a - 1) pivot = false then
          let pe := partitionEqualGo lC a b pivot
          pdqsortGo fuel2 pe.2 pe.1 b limitA wasBalanced wasPartitioned
        else
          let pr := partitionGo lC a b pivot
          let wasB2 := decide (min (pr.1 - a) (b - pr.1) ≥ (b - a) / 8)
          if pr.1 - a < b - pr.1 then
            pdqsortGo fuel2 (pdqsortGo fuel2 pr.2.2 a pr.1 limitA true true)
              (pr.1 + 1) b limitA wasB2 pr.2.1
          else
            pdqsortGo fuel2 (pdqsortGo fuel2 pr.2.2 (pr.1 + 1) b limitA true true)
              a pr.1 limitA wasB2 pr.2.1

/-- `sort.Slice(changes, less)`: `pdqsort(data, 0, n, bits.Len(n))`.  The
fuel bounds the total number of loop iterations plus recursive calls,
which is well under `(n + 4)^2`. -/
def goSortSlice (l : List ChangeEntry) : List ChangeEntry :=
  pdqsortGo ((l.length + 4) * (l.length + 4)) l 0 l.length (bitsLen l.length) true true

/-! ## `formatChangelog` (pkg/changelog/changelog.go)

Only the parts of the rendering that the claims are about are embedded:
the include-score filter, the category grouping, the per-category
`sort.Slice` ranking, the bullet order across the three fixed categories,
and the bullet text (the title and the release header line contain the
current date, which has no bearing on any claim). -/

/-- `strings.ToUpper` on a `String`. -/
def goToUpperS (s : String) : String :=
  ⟨toUpperC s.data⟩

/-- `changesByCategory[cat]`: the entries appended for category `cat` —
those with `IncludeScore ≥ 25` whose uppercased category equals `cat`, in
response order. -/
def categoryBucket (changes : List ChangeEntry) (cat : String) : List ChangeEntry :=
  changes.filter fun c => !(c.includeScore < 25 : Bool) && (goToUpperS c.category == cat)

/-- A category bucket after the `sort.Slice` ranking. -/
def rankedBucket (changes : List ChangeEntry) (cat : String) : List ChangeEntry :=
  goSortSlice (categoryBucket changes cat)

/-- The entries rendered as bullets, in document order: the three fixed
categories in order, each ranked. -/
def renderedChanges (changes : List ChangeEntry) : List ChangeEntry :=
  rankedBucket changes "ADDED" ++ rankedBucket changes "CHANGED" ++ rankedBucket changes "FIXED"

/-- The `*OPTIONAL*` prefix: present exactly for `25 ≤ IncludeScore < 50`. -/
def bulletMarker (c : ChangeEntry) : String :=
  if 25 ≤ c.includeScore ∧ c.includeScore < 50 then "*OPTIONAL* " else ""

/-- The bullet text after the marker. -/
def bulletBody (c : ChangeEntry) : String :=
  c.description ++ ". ([#" ++ toString c.prNumber ++
    "](https://github.com/antrea-io/antrea/pull/" ++ toString c.prNumber ++
    "), [@" ++ c.author ++ "])"

/-- One rendered bullet line. -/
def bulletLine (c : ChangeEntry) : String :=
  "- " ++ bulletMarker c ++ bulletBody c

/-! ### `sort.Slice` only permutes: every helper returns a permutation of
its input. -/

theorem cons_set_perm (d x : ChangeEntry) :
    ∀ (xs : List ChangeEntry) (m : Nat), m < xs.length →
      (xs.getD m d :: xs.set m x).Perm (x :: xs) := by
  intro xs
  induction xs with
  | nil => intro m hm; simp at hm
  | cons y ys ih =>
    intro m hm
    cases m with
    | zero => simpa using List.Perm.swap x y ys
    | succ m2 =>
      simp only [List.getD_cons_succ, List.set_cons_succ]
      have h1 : (ys.getD m2 d :: y :: ys.set m2 x).Perm (y :: ys.getD m2 d :: ys.set m2 x) :=
        List.Perm.swap _ _ _
      have h2 : (ys.getD m2 d :: ys.set m2 x).Perm (x :: ys) :=
        ih m2 (by simpa using hm)
      exact h1.trans ((h2.cons y).trans (List.Perm.swap _ _ _))

theorem set_set_swap_perm (d : ChangeEntry) :
    ∀ (l : List ChangeEntry) (i j : Nat), i < l.length → j < l.length →
      ((l.set i (l.getD j d)).set j (l.getD i d)).Perm l := by
  intro l
  induction l with
  | nil => intro i j hi _; simp at hi
  | cons x xs ih =>
    intro i j hi hj
    cases i with
    | zero =>
      cases j with
      | zero => simp
      | succ m =>
        simp only [List.getD_cons_zero, List.getD_cons_succ, List.set_cons_zero,
          List.set_cons_succ]
        exact cons_set_perm d x xs m (by simpa using hj)
    | succ n =>
      cases j with
      | zero =>
        simp only [List.getD_cons_zero, List.getD_cons_succ, List.set_cons_zero,
          List.set_cons_succ]
        exact cons_set_perm d x xs n (by simpa using hi)
      | succ m =>
        simp only [List.getD_cons_succ, List.set_cons_succ]
        exact (ih n m (by simpa using hi) (by simpa using hj)).cons x

theorem listSwap_perm (l : List ChangeEntry) (i j : Nat) : (listSwap l i j).Perm l := by
  unfold listSwap
  split
  · next h => exact set_set_swap_perm default l i j h.1 h.2
  · exact List.Perm.refl l

theorem goOrderedInsert_perm (x : ChangeEntry) :
    ∀ l, (goOrderedInsert x l).Perm (x :: l) := by
  intro l
  induction l with
  | nil => exact List.Perm.refl _
  | cons y ys ih =>
    unfold goOrderedInsert
    split
    · exact List.Perm.refl _
    · exact (ih.cons y).trans (List.Perm.swap _ _ _)

theorem goInsertionSortL_perm_aux :
    ∀ (rest acc : List ChangeEntry),
      (rest.foldl (fun acc x => goOrderedInsert x acc) acc).Perm (acc ++ rest) := by
  intro rest
  induction rest with
  | nil => intro acc; simp
  | cons x rest2 ih =>
    intro acc
    rw [List.foldl_cons]
    refine (ih (goOrderedInsert x acc)).trans ?_
    refine (List.Perm.append_right rest2 (goOrderedInsert_perm x acc)).trans ?_
    exact List.perm_middle.symm

theorem goInsertionSortL_perm (l : List ChangeEntry) : (goInsertionSortL l).Perm l := by
  simpa [goInsertionSortL] using goInsertionSortL_perm_aux l []

theorem insertionSortRange_perm (l : List ChangeEntry) (a b : Nat) :
    (insertionSortRange l a b).Perm l := by
  unfold insertionSortRange
  rw [List.append_assoc]
  have h2 := List.Perm.append_left (l.take a)
    (List.Perm.append_right ((l.drop a).drop (b - a))
      (goInsertionSortL_perm ((l.drop a).take (b - a))))
  rw [List.take_append_drop (b - a) (l.drop a), List.take_append_drop a l] at h2
  exact h2

theorem siftDownGo_perm :
    ∀ (fuel : Nat) (l : List ChangeEntry) (root hi first : Nat),
      (siftDownGo fuel l root hi first).Perm l := by
  intro fuel
  induction fuel with
  | zero => intro l root hi first; exact List.Perm.refl l
  | succ f ih =>
    intro l root hi first
    unfold siftDownGo
    split
    · exact List.Perm.refl l
    · split
      · exact List.Perm.refl l
      · exact (ih _ _ _ _).trans (listSwap_perm _ _ _)

theorem foldl_perm_of_step (step : List ChangeEntry → Nat → List ChangeEntry)
    (h : ∀ l i, (step l i).Perm l) :
    ∀ (idxs : List Nat) (l : List ChangeEntry), (idxs.foldl step l).Perm l := by
  intro idxs
  induction idxs with
  | nil => intro l; exact List.Perm.refl l
  | cons i rest ih =>
    intro l
    rw [List.foldl_cons]
    exact (ih (step l i)).trans (h l i)

theorem heapSortGo_perm (l : List ChangeEntry) (a b : Nat) : (heapSortGo l a b).Perm l := by
  unfold heapSortGo
  refine (foldl_perm_of_step _ ?_ _ _).trans (foldl_perm_of_step _ ?_ _ _)
  · intro l0 i
    exact (siftDownGo_perm _ _ _ _ _).trans (listSwap_perm _ _ _)
  · intro l0 i
    exact siftDownGo_perm _ _ _ _ _

theorem reverseRangeGo_perm :
    ∀ (fuel : Nat) (l : List ChangeEntry) (i j : Nat), (reverseRangeGo fuel l i j).Perm l := by
  intro fuel
  induction fuel with
  | zero => intro l i j; exact List.Perm.refl l
  | succ f ih =>
    intro l i j
    unfold reverseRangeGo
    split
    · exact (ih _ _ _).trans (listSwap_perm _ _ _)
    · exact List.Perm.refl l

theorem shiftLeftGo_perm :
    ∀ (fuel : Nat) (l : List ChangeEntry) (j : Nat), (shiftLeftGo fuel l j).Perm l := by
  intro fuel
  induction fuel with
  | zero => intro l j; exact List.Perm.refl l
  | succ f ih =>
    intro l j
    unfold shiftLeftGo
    split
    · split
      · exact List.Perm.refl l
      · exact (ih _ _).trans (listSwap_perm _ _ _)
    · exact List.Perm.refl l

theorem shiftRightGo_perm :
    ∀ (fuel : Nat) (l : List ChangeEntry) (b j : Nat), (shiftRightGo fuel l b j).Perm l := by
  intro fuel
  induction fuel with
  | zero => intro l b j; exact List.Perm.refl l
  | succ f ih =>
    intro l b j
    unfold shiftRightGo
    split
    · split
      · exact List.Perm.refl l
      · exact (ih _ _ _).trans (listSwap_perm _ _ _)
    · exact List.Perm.refl l

theorem partialInsertionSortGo_perm :
    ∀ (steps : Nat) (l : List ChangeEntry) (a b i : Nat),
      ((partialInsertionSortGo steps l a b i).2).Perm l := by
  intro steps
  induction steps with
  | zero => intro l a b i; exact List.Perm.refl l
  | succ st ih =>
    intro l a b i
    unfold partialInsertionSortGo
    dsimp only
    split
    · exact List.Perm.refl l
    · split
      · exact List.Perm.refl l
      · refine (ih _ _ _ _).trans ?_
        split
        · split
          · exact ((shiftRightGo_perm _ _ _ _).trans
              (shiftLeftGo_perm _ _ _)).trans (listSwap_perm _ _ _)
          · exact (shiftRightGo_perm _ _ _ _).trans (listSwap_perm _ _ _)
        · split
          · exact (shiftLeftGo_perm _ _ _).trans (listSwap_perm _ _ _)
          · exact listSwap_perm _ _ _

theorem breakPatternsGo_perm (l : List ChangeEntry) (a b : Nat) :
    (breakPatternsGo l a b).Perm l := by
  unfold breakPatternsGo
  dsimp only
  split
  · exact ((listSwap_perm _ _ _).trans (listSwap_perm _ _ _)).trans (listSwap_perm _ _ _)
  · exact List.Perm.refl l

theorem partitionLoop_perm :
    ∀ (fuel : Nat) (l : List ChangeEntry) (a b i j : Nat),
      ((partitionLoop fuel l a b i j).2).Perm l := by
  intro fuel
  induction fuel with
  | zero => intro l a b i j; exact List.Perm.refl l
  | succ f ih =>
    intro l a b i j
    unfold partitionLoop
    dsimp only
    split
    · exact listSwap_perm _ _ _
    · exact (ih _ _ _ _ _).trans (listSwap_perm _ _ _)

theorem partitionGo_perm (l : List ChangeEntry) (a b pivot : Nat) :
    ((partitionGo l a b pivot).2.2).Perm l := by
  unfold partitionGo
  dsimp only
  split
  · exact (listSwap_perm _ _ _).trans (listSwap_perm _ _ _)
  · exact ((partitionLoop_perm _ _ _ _ _ _).trans (listSwap_perm _ _ _)).trans
      (listSwap_perm _ _ _)

theorem partitionEqualLoop_perm :
    ∀ (fuel : Nat) (l : List ChangeEntry) (a b i j : Nat),
      ((partitionEqualLoop fuel l a b i j).2).Perm l := by
  intro fuel
  induction fuel with
  | zero => intro l a b i j; exact List.Perm.refl l
  | succ f ih =>
    intro l a b i j
    unfold partitionEqualLoop
    dsimp only
    split
    · exact List.Perm.refl l
    · exact (ih _ _ _ _ _).trans (listSwap_perm _ _ _)

theorem partitionEqualGo_perm (l : List ChangeEntry) (a b pivot : Nat) :
    ((partitionEqualGo l a b pivot).2).Perm l := by
  unfold partitionEqualGo
  exact (partitionEqualLoop_perm _ _ _ _ _ _).trans (listSwap_perm _ _ _)

theorem pdqsortGo_perm :
    ∀ (fuel : Nat) (l : List ChangeEntry) (a b limit : Nat) (wb wp : Bool),
      (pdqsortGo fuel l a b limit wb wp).Perm l := by
  intro fuel
  induction fuel with
  | zero => intro l a b limit wb wp; exact List.Perm.refl l
  | succ f ih =>
    intro l a b limit wb wp
    rw [pdqsortGo]
    split
    · exact insertionSortRange_perm l a b
    · split
      · exact heapSortGo_perm l a b
      · dsimp only
        have hA : (if !wb then breakPatternsGo l a b else l).Perm l := by
          split
          · exact breakPatternsGo_perm l a b
          · exact List.Perm.refl l
        generalize hgA : (if !wb then breakPatternsGo l a b else l) = lA at hA ⊢
        have hB : (if (choosePivotGo lA a b).2 = GoHint.dec
            then reverseRangeGo (b + 1) lA a (b - 1) else lA).Perm lA := by
          split
          · exact reverseRangeGo_perm _ _ _ _
          · exact List.Perm.refl lA
        generalize hgB : (if (choosePivotGo lA a b).2 = GoHint.dec
            then reverseRangeGo (b + 1) lA a (b - 1) else lA) = lB at hB ⊢
        have hP : ((if wb = true ∧ wp = true ∧
              (if (choosePivotGo lA a b).2 = GoHint.dec then GoHint.inc
               else (choosePivotGo lA a b).2) = GoHint.inc then
            partialInsertionSortGo 5 lB a b (a + 1)
          else (false, lB)).2).Perm lB := by
          repeat' split
          all_goals first
            | exact partialInsertionSortGo_perm _ _ _ _ _
            | exact List.Perm.refl lB
        generalize hgP : (if wb = true ∧ wp = true ∧
              (if (choosePivotGo lA a b).2 = GoHint.dec then GoHint.inc
               else (choosePivotGo lA a b).2) = GoHint.inc then
            partialInsertionSortGo 5 lB a b (a + 1)
          else (false, lB)) = pres at hP ⊢
        have hchain : pres.2.Perm l := (hP.trans hB).trans hA
        repeat' split
        all_goals first
          | exact hchain
          | exact (ih _ _ _ _ _ _).trans ((partitionEqualGo_perm _ _ _ _).trans hchain)
          | exact (ih _ _ _ _ _ _).trans ((ih _ _ _ _ _ _).trans
              ((partitionGo_perm _ _ _ _).trans hchain))

theorem goSortSlice_perm (l : List ChangeEntry) : (goSortSlice l).Perm l :=
  pdqsortGo_perm _ l 0 l.length (bitsLen l.length) true true

theorem rankedBucket_perm (changes : List ChangeEntry) (cat : String) :
    (rankedBucket changes cat).Perm (categoryBucket changes cat) :=
  goSortSlice_perm _

/-! ### The insertion-sort path (buckets of at most 12 entries) is a
stable descending sort. -/

/-- Weakly descending importance order. -/
def SortedByImportance (l : List ChangeEntry) : Prop :=
  l.Pairwise fun x y => y.importanceScore ≤ x.importanceScore

theorem goOrderedInsert_mem {z x : ChangeEntry} {l : List ChangeEntry} :
    z ∈ goOrderedInsert x l ↔ z = x ∨ z ∈ l := by
  rw [(goOrderedInsert_perm x l).mem_iff, List.mem_cons]

theorem goOrderedInsert_sorted {x : ChangeEntry} {l : List ChangeEntry}
    (hl : SortedByImportance l) : SortedByImportance (goOrderedInsert x l) := by
  induction l with
  | nil =>
    unfold goOrderedInsert SortedByImportance
    simp
  | cons y ys ih =>
    rw [SortedByImportance, List.pairwise_cons] at hl
    obtain ⟨hy, hys⟩ := hl
    unfold goOrderedInsert
    split
    · next h =>
      rw [SortedByImportance, List.pairwise_cons]
      refine ⟨?_, List.pairwise_cons.2 ⟨hy, hys⟩⟩
      intro z hz
      rcases List.mem_cons.1 hz with rfl | hz2
      · omega
      · have := hy z hz2
        omega
    · next h =>
      rw [SortedByImportance, List.pairwise_cons]
      refine ⟨?_, ih hys⟩
      intro z hz
      rcases goOrderedInsert_mem.1 hz with rfl | hz2
      · omega
      · exact hy z hz2

theorem goInsertionSortL_sorted_aux :
    ∀ (rest acc : List ChangeEntry), SortedByImportance acc →
      SortedByImportance (rest.foldl (fun acc x => goOrderedInsert x acc) acc) := by
  intro rest
  induction rest with
  | nil => intro acc h; exact h
  | cons x rest2 ih =>
    intro acc h
    rw [List.foldl_cons]
    exact ih _ (goOrderedInsert_sorted h)

theorem goInsertionSortL_sorted (l : List ChangeEntry) :
    SortedByImportance (goInsertionSortL l) :=
  goInsertionSortL_sorted_aux l [] (List.Pairwise.nil)

theorem goOrderedInsert_filter (s : Int) {l : List ChangeEntry}
    (hl : SortedByImportance l) (x : ChangeEntry) :
    (goOrderedInsert x l).filter (fun e => e.importanceScore == s) =
      (if x.importanceScore = s
       then l.filter (fun e => e.importanceScore == s) ++ [x]
       else l.filter (fun e => e.importanceScore == s)) := by
  induction l with
  | nil =>
    unfold goOrderedInsert
    by_cases hx : x.importanceScore = s
    · rw [if_pos hx, List.filter_cons_of_pos (by simp [hx])]
      simp
    · rw [if_neg hx, List.filter_cons_of_neg (by simp [hx])]
  | cons y ys ih =>
    rw [SortedByImportance, List.pairwise_cons] at hl
    obtain ⟨hy, hys⟩ := hl
    unfold goOrderedInsert
    split
    · next hgt =>
      by_cases hx : x.importanceScore = s
      · rw [if_pos hx]
        have hempty : (y :: ys).filter (fun e => e.importanceScore == s) = [] := by
          rw [List.filter_eq_nil_iff]
          intro z hz
          rcases List.mem_cons.1 hz with rfl | hz2
          · simp only [beq_iff_eq]
            omega
          · have := hy z hz2
            simp only [beq_iff_eq]
            omega
        rw [List.filter_cons_of_pos (by simp [hx]), hempty]
        simp
      · rw [if_neg hx, List.filter_cons_of_neg (by simp [hx])]
    · next hle =>
      have ihy := ih hys
      by_cases hyp : y.importanceScore = s
      · rw [List.filter_cons_of_pos (by simp [hyp]), ihy,
          List.filter_cons_of_pos (by simp [hyp])]
        by_cases hx : x.importanceScore = s
        · rw [if_pos hx, if_pos hx, List.cons_append]
        · rw [if_neg hx, if_neg hx]
      · rw [List.filter_cons_of_neg (by simp [hyp]), ihy,
          List.filter_cons_of_neg (by simp [hyp])]

theorem goInsertionSortL_filter_aux (s : Int) :
    ∀ (rest acc : List ChangeEntry), SortedByImportance acc →
      (rest.foldl (fun acc x => goOrderedInsert x acc) acc).filter
          (fun e => e.importanceScore == s) =
        acc.filter (fun e => e.importanceScore == s) ++
          rest.filter (fun e => e.importanceScore == s) := by
  intro rest
  induction rest with
  | nil => intro acc _; simp
  | cons x rest2 ih =>
    intro acc hacc
    rw [List.foldl_cons, ih _ (goOrderedInsert_sorted hacc),
      goOrderedInsert_filter s hacc x, List.filter_cons]
    by_cases hx : x.importanceScore = s
    · rw [if_pos hx, if_pos (by simp [hx]), List.append_assoc, List.singleton_append]
    · rw [if_neg hx, if_neg (by simp [hx])]

theorem goInsertionSortL_filter (s : Int) (l : List ChangeEntry) :
    (goInsertionSortL l).filter (fun e => e.importanceScore == s) =
      l.filter (fun e => e.importanceScore == s) := by
  have := goInsertionSortL_filter_aux s l [] List.Pairwise.nil
  simpa [goInsertionSortL] using this

/-- Go's `pdqsort` on at most 12 elements is exactly the insertion sort. -/
theorem goSortSlice_small {l : List ChangeEntry} (h : l.length ≤ 12) :
    goSortSlice l = goInsertionSortL l := by
  unfold goSortSlice
  have h16 : 4 * 4 ≤ (l.length + 4) * (l.length + 4) :=
    Nat.mul_le_mul (by omega) (by omega)
  have hf : (l.length + 4) * (l.length + 4) =
      ((l.length + 4) * (l.length + 4) - 1) + 1 := by omega
  rw [hf, pdqsortGo]
  dsimp only
  rw [if_pos (by simpa using h)]
  unfold insertionSortRange
  simp

/-! ## C4 and C6 -/

/-- C4 (counterexample): an entry with inclusion confidence 80 whose
category (`REMOVED`) is not one of ADDED/CHANGED/FIXED is dropped from the
rendered document entirely; the claim says every entry with confidence at
least 50 is rendered without the marker. -/
theorem C4_threshold_counterexample :
    (50 : Int) ≤ (⟨7, "REMOVED", "x", 80, 0, false, "a"⟩ : ChangeEntry).includeScore ∧
    renderedChanges [⟨7, "REMOVED", "x", 80, 0, false, "a"⟩] = [] :=
  ⟨by decide, rfl⟩

/-- C4 (amended): for every classifier entry: confidence below 25 means it
is absent from the rendered document; an entry whose uppercased category
is one of ADDED/CHANGED/FIXED and whose confidence is in [25,50) is
rendered with the `*OPTIONAL*` marker prefix, and with confidence at least
50 it is rendered without the marker; entries of any other category are
never rendered regardless of confidence. -/
theorem C4_threshold_marking (changes : List ChangeEntry) (c : ChangeEntry)
    (hc : c ∈ changes) :
    (c.includeScore < 25 → c ∉ renderedChanges changes) ∧
    (¬(goToUpperS c.category = "ADDED" ∨ goToUpperS c.category = "CHANGED" ∨
        goToUpperS c.category = "FIXED") → c ∉ renderedChanges changes) ∧
    (goToUpperS c.category = "ADDED" ∨ goToUpperS c.category = "CHANGED" ∨
        goToUpperS c.category = "FIXED" →
      25 ≤ c.includeScore →
      c ∈ renderedChanges changes ∧
      (c.includeScore < 50 → bulletLine c = "- " ++ ("*OPTIONAL* " ++ bulletBody c)) ∧
      (50 ≤ c.includeScore → bulletLine c = "- " ++ bulletBody c)) := by
  have hmem : c ∈ renderedChanges changes ↔
      c ∈ categoryBucket changes "ADDED" ∨ c ∈ categoryBucket changes "CHANGED" ∨
      c ∈ categoryBucket changes "FIXED" := by
    unfold renderedChanges
    rw [List.mem_append, List.mem_append,
      (rankedBucket_perm changes "ADDED").mem_iff,
      (rankedBucket_perm changes "CHANGED").mem_iff,
      (rankedBucket_perm changes "FIXED").mem_iff]
    tauto
  refine ⟨?_, ?_, ?_⟩
  · intro hlow hin
    rcases hmem.1 hin with h | h | h <;>
    · have h2 := (List.mem_filter.1 h).2
      rw [Bool.and_eq_true] at h2
      have h3 := h2.1
      rw [Bool.not_eq_true', decide_eq_false_iff_not] at h3
      exact h3 hlow
  · intro hncat hin
    refine hncat ?_
    rcases hmem.1 hin with h | h | h
    · left
      have h2 := (List.mem_filter.1 h).2
      rw [Bool.and_eq_true, beq_iff_eq] at h2
      exact h2.2
    · right; left
      have h2 := (List.mem_filter.1 h).2
      rw [Bool.and_eq_true, beq_iff_eq] at h2
      exact h2.2
    · right; right
      have h2 := (List.mem_filter.1 h).2
      rw [Bool.and_eq_true, beq_iff_eq] at h2
      exact h2.2
  · intro hcat h25
    have hfilt : ∀ cat : String, goToUpperS c.category = cat →
        c ∈ categoryBucket changes cat := by
      intro cat hcateq
      refine List.mem_filter.2 ⟨hc, ?_⟩
      rw [Bool.and_eq_true]
      constructor
      · rw [Bool.not_eq_true', decide_eq_false_iff_not]
        omega
      · rw [beq_iff_eq]
        exact hcateq
    refine ⟨?_, ?_, ?_⟩
    · rcases hcat with h | h | h
      · exact hmem.2 (Or.inl (hfilt _ h))
      · exact hmem.2 (Or.inr (Or.inl (hfilt _ h)))
      · exact hmem.2 (Or.inr (Or.inr (hfilt _ h)))
    · intro h50
      unfold bulletLine bulletMarker
      rw [if_pos ⟨h25, h50⟩, String.append_assoc]
    · intro h50
      unfold bulletLine bulletMarker
      rw [if_neg (by omega)]
      rw [show ("- " ++ "" : String) = "- " from rfl]

/-- C4 (witness): entries with confidence 10, 35 and 80 in category FIXED,
plus a confidence-90 entry of category `Removed`: the first and the last
are absent, the confidence-35 entry is rendered with the marker, the
confidence-80 entry rendered unmarked. -/
theorem C4_threshold_marking_witness :
    ((⟨1, "FIXED", "low", 10, 0, false, "a"⟩ : ChangeEntry) ∉
      renderedChanges
        [⟨1, "FIXED", "low", 10, 0, false, "a"⟩, ⟨2, "FIXED", "mid", 35, 0, false, "b"⟩,
         ⟨3, "FIXED", "high", 80, 0, false, "d"⟩, ⟨4, "Removed", "skip", 90, 0, false, "e"⟩]) ∧
    ((⟨4, "Removed", "skip", 90, 0, false, "e"⟩ : ChangeEntry) ∉
      renderedChanges
        [⟨1, "FIXED", "low", 10, 0, false, "a"⟩, ⟨2, "FIXED", "mid", 35, 0, false, "b"⟩,
         ⟨3, "FIXED", "high", 80, 0, false, "d"⟩, ⟨4, "Removed", "skip", 90, 0, false, "e"⟩]) ∧
    ((⟨2, "FIXED", "mid", 35, 0, false, "b"⟩ : ChangeEntry) ∈
      renderedChanges
        [⟨1, "FIXED", "low", 10, 0, false, "a"⟩, ⟨2, "FIXED", "mid", 35, 0, false, "b"⟩,
         ⟨3, "FIXED", "high", 80, 0, false, "d"⟩, ⟨4, "Removed", "skip", 90, 0, false, "e"⟩] ∧
      bulletLine ⟨2, "FIXED", "mid", 35, 0, false, "b"⟩ =
        "- " ++ ("*OPTIONAL* " ++ bulletBody ⟨2, "FIXED", "mid", 35, 0, false, "b"⟩)) ∧
    ((⟨3, "FIXED", "high", 80, 0, false, "d"⟩ : ChangeEntry) ∈
      renderedChanges
        [⟨1, "FIXED", "low", 10, 0, false, "a"⟩, ⟨2, "FIXED", "mid", 35, 0, false, "b"⟩,
         ⟨3, "FIXED", "high", 80, 0, false, "d"⟩, ⟨4, "Removed", "skip", 90, 0, false, "e"⟩] ∧
      bulletLine ⟨3, "FIXED", "high", 80, 0, false, "d"⟩ =
        "- " ++ bulletBody ⟨3, "FIXED", "high", 80, 0, false, "d"⟩) := by
  refine ⟨(C4_threshold_marking _ _ (by decide)).1 (by decide),
    (C4_threshold_marking _ _ (by decide)).2.1 (by decide), ?_, ?_⟩
  · have h := (C4_threshold_marking
      [⟨1, "FIXED", "low", 10, 0, false, "a"⟩, ⟨2, "FIXED", "mid", 35, 0, false, "b"⟩,
       ⟨3, "FIXED", "high", 80, 0, false, "d"⟩, ⟨4, "Removed", "skip", 90, 0, false, "e"⟩]
      ⟨2, "FIXED", "mid", 35, 0, false, "b"⟩ (by decide)).2.2
      (by right; right; decide) (by decide)
    exact ⟨h.1, h.2.1 (by decide)⟩
  · have h := (C4_threshold_marking
      [⟨1, "FIXED", "low", 10, 0, false, "a"⟩, ⟨2, "FIXED", "mid", 35, 0, false, "b"⟩,
       ⟨3, "FIXED", "high", 80, 0, false, "d"⟩, ⟨4, "Removed", "skip", 90, 0, false, "e"⟩]
      ⟨3, "FIXED", "high", 80, 0, false, "d"⟩ (by decide)).2.2
      (by right; right; decide) (by decide)
    exact ⟨h.1, h.2.2 (by decide)⟩

/-- The 13-entry classifier output exhibiting `sort.Slice` instability:
all entries are FIXED with confidence 100; the importance scores are
10, 40, 0, 20, 0, 30, 30, 30, 30, 10, 0, 30, 0. -/
def cexC6 : List ChangeEntry :=
  [⟨0, "FIXED", "e0", 100, 10, false, "a"⟩, ⟨1, "FIXED", "e1", 100, 40, false, "a"⟩,
   ⟨2, "FIXED", "e2", 100, 0, false, "a"⟩, ⟨3, "FIXED", "e3", 100, 20, false, "a"⟩,
   ⟨4, "FIXED", "e4", 100, 0, false, "a"⟩, ⟨5, "FIXED", "e5", 100, 30, false, "a"⟩,
   ⟨6, "FIXED", "e6", 100, 30, false, "a"⟩, ⟨7, "FIXED", "e7", 100, 30, false, "a"⟩,
   ⟨8, "FIXED", "e8", 100, 30, false, "a"⟩, ⟨9, "FIXED", "e9", 100, 10, false, "a"⟩,
   ⟨10, "FIXED", "e10", 100, 0, false, "a"⟩, ⟨11, "FIXED", "e11", 100, 30, false, "a"⟩,
   ⟨12, "FIXED", "e12", 100, 0, false, "a"⟩]

/-- C6 (counterexample): on a 13-entry FIXED bucket, Go's `sort.Slice`
(not stable beyond its 12-element insertion-sort threshold) reorders the
equal-importance entries: entries `e5` and `e6` both have importance 30
and appear in that order in the classifier output, but the rendered order
is e1, e6, e11, e8, e7, e5, ... — `e6` (classifier position 6) comes out
before `e5` (classifier position 5), violating the stability claim. -/
theorem C6_rank_counterexample :
    (cexC6.getD 5 default).importanceScore = (cexC6.getD 6 default).importanceScore ∧
    renderedChanges cexC6 =
      [cexC6.getD 1 default, cexC6.getD 6 default, cexC6.getD 11 default,
       cexC6.getD 8 default, cexC6.getD 7 default, cexC6.getD 5 default,
       cexC6.getD 3 default, cexC6.getD 0 default, cexC6.getD 9 default,
       cexC6.getD 4 default, cexC6.getD 10 default, cexC6.getD 2 default,
       cexC6.getD 12 default] :=
  ⟨rfl, rfl⟩

/-- C6 (amended): for every category bucket of at most 12 entries (Go's
insertion-sort threshold for `sort.Slice`), ranking sorts the bucket in
weakly descending importance order and is stable: for every score, the
entries carrying that score keep their classifier-returned relative order.
For larger buckets `sort.Slice` gives no stability guarantee and equal
scores can be reordered (see the 13-entry counterexample). -/
theorem C6_rank_sorted_stable_small (changes : List ChangeEntry) (cat : String)
    (hsmall : (categoryBucket changes cat).length ≤ 12) :
    SortedByImportance (rankedBucket changes cat) ∧
    ∀ s : Int, (rankedBucket changes cat).filter (fun e => e.importanceScore == s) =
      (categoryBucket changes cat).filter (fun e => e.importanceScore == s) := by
  unfold rankedBucket
  rw [goSortSlice_small hsmall]
  exact ⟨goInsertionSortL_sorted _, fun s => goInsertionSortL_filter s _⟩

/-- C6 (witness): a three-entry FIXED bucket (with case-insensitive
category spellings) is ranked descending and the two importance-10 entries
keep their order. -/
theorem C6_rank_sorted_stable_small_witness :
    SortedByImportance (rankedBucket
      [⟨1, "Fixed", "w1", 60, 10, false, "a"⟩, ⟨2, "fixed", "w2", 70, 30, false, "b"⟩,
       ⟨3, "FIXED", "w3", 80, 10, false, "d"⟩] "FIXED") ∧
    (rankedBucket
      [⟨1, "Fixed", "w1", 60, 10, false, "a"⟩, ⟨2, "fixed", "w2", 70, 30, false, "b"⟩,
       ⟨3, "FIXED", "w3", 80, 10, false, "d"⟩] "FIXED").filter
        (fun e => e.importanceScore == (10 : Int)) =
      (categoryBucket
        [⟨1, "Fixed", "w1", 60, 10, false, "a"⟩, ⟨2, "fixed", "w2", 70, 30, false, "b"⟩,
         ⟨3, "FIXED", "w3", 80, 10, false, "d"⟩] "FIXED").filter
        (fun e => e.importanceScore == (10 : Int)) := by
  have h := C6_rank_sorted_stable_small
    [⟨1, "Fixed", "w1", 60, 10, false, "a"⟩, ⟨2, "fixed", "w2", 70, 30, false, "b"⟩,
     ⟨3, "FIXED", "w3", 80, 10, false, "d"⟩] "FIXED" (by decide)
  exact ⟨h.1, h.2 10⟩

/-- C1 (witness): the three branches evaluated at 1.2.3, 1.2.0 and 1.0.0. -/
theorem C1_calculatePreviousRelease_witness :
    Version.CalculatePreviousRelease ⟨1, 2, 3⟩ = Version.toVString ⟨1, 2, 2⟩ ∧
    Version.CalculatePreviousRelease ⟨1, 2, 0⟩ = Version.toVString ⟨1, 1, 0⟩ ∧
    Version.CalculatePreviousRelease ⟨1, 0, 0⟩ = Version.toVString ⟨1, 0, 0⟩ :=
  ⟨(C1_calculatePreviousRelease ⟨1, 2, 3⟩).1 (by decide),
   (C1_calculatePreviousRelease ⟨1, 2, 0⟩).2.1 rfl (by decide),
   (C1_calculatePreviousRelease ⟨1, 0, 0⟩).2.2 rfl rfl⟩

end Antrea
